import Mathlib

/-!
The escape-time evaluator and the frame renderer of `mandelbrot.c`.

A shallow embedding of `src/mandelbrot.c`.

* The functions are embedded twice. In the namespace `Mandelbrot`, `real_t` (a C
  `double`) is the rationals with exact arithmetic. In the namespace
  `Mandelbrot.IEEE` the same functions are embedded with every operation rounded
  as the program rounds it: binary64 for `double`, binary32 for the `float`
  operations on `sine`, round to nearest with ties to even, overflow to an
  infinity, NaN for an undefined result, each operation rounded on its own.
* `int` is the integers; the products and sums of `render` (lines 99 and 102) are
  reduced to 32 bits by `int_wrap`. The escape-time recursion only counts down from
  its budget and up to it, so it never leaves the range of its argument.
* The clock read and the sine of lines 89-90 of `render` are taken as the
  parameter `sine`.
* The `char *buffer` of `render` is modelled by a map from indices to characters,
  and standard output by the list of characters written.
* `main` never leaves its loop; it is followed for a given number of rounds, with
  the outcome of the terminal query as a parameter.
-/

namespace Mandelbrot

/-- Source: `typedef double real_t;`. -/
abbrev real_t : Type := ℚ

/-- Source: `typedef struct { real_t real; real_t imag; } complex_t;`. -/
structure complex_t where
  real : real_t
  imag : real_t
  deriving DecidableEq

/-- Source: `#define COMPLEX(real, imag) (complex_t) { (real), (imag) }`. -/
def COMPLEX (real imag : real_t) : complex_t := ⟨real, imag⟩

/-- Source: `#define re(z) (z).real`. -/
def re (z : complex_t) : real_t := z.real

/-- Source: `#define im(z) (z).imag`. -/
def im (z : complex_t) : real_t := z.imag

/-- Source: `cadd`, lines 57-59. -/
def cadd (lhs rhs : complex_t) : complex_t :=
  COMPLEX (lhs.real + rhs.real) (lhs.imag + rhs.imag)

/-- Source: `csquared`, lines 61-63. -/
def csquared (z : complex_t) : complex_t :=
  COMPLEX (re z * re z - im z * im z) (2 * re z * im z)

/-- Source: `clength_squared`, lines 65-67 (a subtraction, as in the source). -/
def clength_squared (z : complex_t) : real_t :=
  re z * re z - im z * im z

/-- Source: `mandelbrot`, lines 73-81. -/
def mandelbrot (z c : complex_t) (n : Int) : Int :=
  if n < 0 then
    -1
  else if n = 0 ∨ clength_squared z > 4 then
    0
  else
    mandelbrot (cadd (csquared z) c) c (n - 1) + 1
termination_by n.toNat
decreasing_by omega

/-- The orbit of the update at line 79, `z = cadd(csquared(z), c)`: `z_0 = z` and
`z_(j+1) = csquared z_j + c`. Properties of `mandelbrot` are stated over it. -/
def orbit (z c : complex_t) : Nat → complex_t
  | 0 => z
  | k + 1 => cadd (csquared (orbit z c k)) c

/-- The iterative form of the evaluator in the words of the specification (not in the
source): the loop `while count < n and clength_squared(z) <= 4: z = csquared(z) + c;
count += 1`, started from the given `z` and `count`; its value is the final `count`. -/
def mandelbrot_loop (c : complex_t) (n : Int) (z : complex_t) (count : Int) : Int :=
  if count < n ∧ clength_squared z ≤ 4 then
    mandelbrot_loop c n (cadd (csquared z) c) (count + 1)
  else
    count
termination_by (n - count).toNat
decreasing_by omega

/-- The iterative form of the evaluator in the words of the specification (not in the
source): `count = 0`, then the loop `mandelbrot_loop`, then `return count`. -/
def mandelbrot_iter (z c : complex_t) (n : Int) : Int :=
  mandelbrot_loop c n z 0

/-- Source: `#define remap(x, dim, l, r) (real_t) (x) * ((r) - (l)) / ((dim) - 1) + (l)`;
`x` and `dim` are `int`s, `(dim) - 1` is computed on `int`s and then converted. -/
def remap (x dim : Int) (l r : real_t) : real_t :=
  (x : real_t) * (r - l) / ((dim - 1 : Int) : real_t) + l

/-- Source: `#define NCHR 12`. -/
def NCHR : Int := 12

/-- Source: `char chr[NCHR] = ".,-~:;=!*#$@";`. -/
def chr : List Char :=
  ['.', ',', '-', '~', ':', ';', '=', '!', '*', '#', '$', '@']

/-- The read `chr[idx]`; a read outside the array yields the NUL character here. -/
def chr_at (idx : Nat) : Char := chr.getD idx (Char.ofNat 0)

/-- The conversion `(size_t) v`: the fractional part of `v` is discarded (rounding toward
zero); a `v` below zero yields 0 here. -/
def size_t_of_real (v : real_t) : Nat := (Int.tdiv v.num (v.den : Int)).toNat

/-- Lines 93-96 of `render`: the point `c` of the cell in column `x` and row `y`. -/
def render_point (width height : Int) (sine : real_t) (x y : Int) : complex_t :=
  COMPLEX (remap x width (-2 + sine + 0.75 * sine) (1 - sine + 0.75 * sine))
    (remap y height (-1 + sine * 0.67) (1 - sine * 0.67))

/-- Line 98 of `render`: `idx = (size_t) ((real_t) i / n * (NCHR - 1))`. -/
def render_idx (i n : Int) : Nat :=
  size_t_of_real ((i : real_t) / (n : real_t) * ((NCHR - 1 : Int) : real_t))

/-- The value of an `int` expression whose mathematical result is `v`: `v` reduced to 32
bits in two's complement. -/
def int_wrap (v : Int) : Int := (v + 2147483648) % 4294967296 - 2147483648

/-- Lines 93-98 of `render` and the read `chr[idx]` of line 99: the character of the cell in
column `x` and row `y`. -/
def render_glyph (width height n : Int) (sine : real_t) (x y : Int) : Char :=
  let c := render_point width height sine x y
  let i := mandelbrot (COMPLEX 0 0) c n
  let idx := render_idx i n
  chr_at idx

/-- Lines 93-99 of `render`: the body of the inner loop, ending in the store
`buffer[y * width + x] = chr[idx]`. -/
def render_body (width height n : Int) (sine : real_t) (buffer : Int → Char) (x y : Int) :
    Int → Char :=
  Function.update buffer (int_wrap (int_wrap (y * width) + x))
    (render_glyph width height n sine x y)

/-- Lines 92-100 of `render`: the inner loop, `x = 0, 1, .., width - 1`. -/
def render_row (width height n : Int) (sine : real_t) (buffer : Int → Char) (y : Int) :
    Int → Char :=
  (List.range width.toNat).foldl
    (fun (b : Int → Char) (x : Nat) => render_body width height n sine b (x : Int) y) buffer

/-- Lines 91-101 of `render`: the outer loop, `y = height - 1, .., 1, 0`. -/
def render_fill (width height n : Int) (sine : real_t) (buffer : Int → Char) : Int → Char :=
  (List.range height.toNat).reverse.foldl
    (fun (b : Int → Char) (y : Nat) => render_row width height n sine b (y : Int)) buffer

/-- Lines 102-104 of `render`: the characters printed, `buffer[0], .., buffer[width*height-1]`. -/
def render_emit (width height : Int) (buffer : Int → Char) : List Char :=
  (List.range (int_wrap (width * height)).toNat).map (fun i : Nat => buffer (i : Int))

/-- Source: `render`, lines 88-105, with `sine` (lines 89-90) as a parameter. The result is the
buffer after the call and the characters written to standard output. -/
def render (width height n : Int) (sine : real_t) (buffer : Int → Char) :
    (Int → Char) × List Char :=
  let buffer1 := render_fill width height n sine buffer
  (buffer1, render_emit width height buffer1)

/-- Lines 102-104 of `render`: the buffer indices `0, 1, .., width*height - 1` in the order
in which the printing loop reads them. -/
def render_emit_order (width height : Int) : List Int :=
  (List.range (int_wrap (width * height)).toNat).map (fun i : Nat => (i : Int))

/-- Source: `get_termsize`, lines 16-33. `ioctl` is the outcome of the platform query: `none`
when it fails, the columns and rows otherwise. `width` and `height` are the values at
`*width` and `*height` before the call (both pointers are valid, as in `main`); the result is
the value returned and the two values after the call. -/
def get_termsize (ioctl : Option (Int × Int)) (width height : Int) : Int × Int × Int :=
  match ioctl with
  | none => (-1, width, height)
  | some (col, row) => (0, col, row)

/-- Lines 112-115 of `main`: the first `frames` rounds of the endless loop. `sines k` is the
value of `sine` in round `k`. The result is the buffer, the characters written and the
arguments `(width, height, n)` of the calls of `render`, after these rounds. -/
def main_loop (width height : Int) (sines : Nat → real_t) (buffer : Int → Char) :
    Nat → (Int → Char) × List Char × List (Int × Int × Int)
  | 0 => (buffer, [], [])
  | k + 1 =>
    let st := main_loop width height sines buffer k
    let r := render width height 500 (sines k) st.1
    (r.1, st.2.1 ++ [Char.ofNat 27, '[', 'H'] ++ r.2, st.2.2 ++ [(width, height, 500)])

/-- Source: `main`, lines 107-117, followed for `frames` rounds of its loop. `buffer` is the
content of the allocated memory. The result is the value returned (`none` while the loop
runs), the characters written and the arguments of the calls of `render`. -/
def main (ioctl : Option (Int × Int)) (sines : Nat → real_t) (buffer : Int → Char)
    (frames : Nat) : Option Int × List Char × List (Int × Int × Int) :=
  let t := get_termsize ioctl 0 0
  if t.1 < 0 ∨ t.2.1 ≤ 1 ∨ t.2.2 ≤ 1 then
    (some (-1), [], [])
  else
    let st := main_loop t.2.1 t.2.2 sines buffer frames
    (none, st.2.1, st.2.2)

namespace IEEE

/-- A floating-point datum: a finite value (the two zeros are not told apart), an infinity
or a NaN. -/
inductive fp where
  | fin (q : ℚ)
  | pinf
  | ninf
  | nan
  deriving DecidableEq

/-- One step of the binary logarithm: when `2 ^ k ≤ n`, `n` is shifted right by `k` bits
and `k` is added to the count. -/
def lg_step (k : Nat) (st : Nat × Nat) : Nat × Nat :=
  cond (Nat.ble (Nat.pow 2 k) st.1) (Nat.shiftRight st.1 k, Nat.add st.2 k) st

/-- The binary logarithm of `n` rounded down, for `1 ≤ n < 2 ^ 4096`; 0 for `n = 0`. -/
def lg (n : Nat) : Nat :=
  (lg_step 1 (lg_step 2 (lg_step 4 (lg_step 8 (lg_step 16 (lg_step 32 (lg_step 64
    (lg_step 128 (lg_step 256 (lg_step 512 (lg_step 1024 (lg_step 2048 (n, 0))))))))))))).2

/-- The quotient `a / b` of two naturals (`b > 0`) rounded to the nearest natural, a tie
going to the even one. -/
def div_round_even (a b : Nat) : Nat :=
  cond (Nat.ble (Nat.succ (Nat.mul 2 (Nat.mod a b))) b) (Nat.div a b)
    (cond (Nat.ble (Nat.succ b) (Nat.mul 2 (Nat.mod a b))) (Nat.succ (Nat.div a b))
      (cond (Nat.beq (Nat.mod (Nat.div a b) 2) 0) (Nat.div a b) (Nat.succ (Nat.div a b))))

/-- Rounding of the rational `q` into the binary format with `p` bits of precision and
largest exponent `emax` (at most 2046): to the nearest value of the format, a tie going to the
even significand, with gradual underflow below `2 ^ (1 - emax)` and an infinity from
`2 ^ (emax + 1)` on. With `|q| = a / b`, `k` is the exponent of `|q|` counted from the least
exponent `1 - emax` (0 below it), and the rounded magnitude is `m * 2 ^ (k - t)` for
`t = emax + p - 2`. -/
def round (p emax : Nat) (q : ℚ) : fp :=
  let a := q.num.natAbs
  let b := q.den
  let k := lg (Nat.div (Nat.mul a (Nat.pow 2 (Nat.sub emax 1))) b)
  let t := Nat.sub (Nat.add emax p) 2
  let m := div_round_even (Nat.mul a (Nat.pow 2 (Nat.sub t k)))
    (Nat.mul b (Nat.pow 2 (Nat.sub k t)))
  cond (Nat.beq a 0) (fp.fin 0)
    (cond
      (Nat.ble (Nat.pow 2 (Nat.add (Nat.mul 2 emax) 1))
          (Nat.div (Nat.mul a (Nat.pow 2 (Nat.sub emax 1))) b) ||
        Nat.ble (Nat.pow 2 (Nat.add (Nat.add t emax) 1)) (Nat.mul m (Nat.pow 2 k)))
      (if q.num < 0 then fp.ninf else fp.pinf)
      (fp.fin
        (if q.num < 0 then
          -mkRat (Int.ofNat (Nat.mul m (Nat.pow 2 (Nat.sub k t)))) (Nat.pow 2 (Nat.sub t k))
        else
          mkRat (Int.ofNat (Nat.mul m (Nat.pow 2 (Nat.sub k t)))) (Nat.pow 2 (Nat.sub t k)))))

/-- Rounding to `double` (binary64). -/
def round_double (q : ℚ) : fp := round 53 1023 q

/-- Rounding to `float` (binary32). -/
def round_float (q : ℚ) : fp := round 24 127 q

/-- The sign of a datum, 0 for a zero and for a NaN. -/
def sgn : fp → Int
  | fp.fin x => if 0 < x then 1 else if x < 0 then -1 else 0
  | fp.pinf => 1
  | fp.ninf => -1
  | fp.nan => 0

/-- Unary minus. -/
def neg : fp → fp
  | fp.fin x => fp.fin (-x)
  | fp.pinf => fp.ninf
  | fp.ninf => fp.pinf
  | fp.nan => fp.nan

/-- Addition, rounded by `r`. -/
def add (r : ℚ → fp) : fp → fp → fp
  | fp.nan, _ => fp.nan
  | _, fp.nan => fp.nan
  | fp.fin x, fp.fin y => r (x + y)
  | fp.pinf, fp.ninf => fp.nan
  | fp.ninf, fp.pinf => fp.nan
  | fp.pinf, _ => fp.pinf
  | fp.ninf, _ => fp.ninf
  | fp.fin _, fp.pinf => fp.pinf
  | fp.fin _, fp.ninf => fp.ninf

/-- Multiplication, rounded by `r`; an infinity times a zero is a NaN. -/
def mul (r : ℚ → fp) : fp → fp → fp
  | fp.nan, _ => fp.nan
  | _, fp.nan => fp.nan
  | fp.fin x, fp.fin y => r (x * y)
  | a, b =>
    if sgn a * sgn b = 0 then fp.nan
    else if 0 < sgn a * sgn b then fp.pinf
    else fp.ninf

/-- Division, rounded by `r`. A zero divisor is the positive zero (in the source every
divisor is a converted `int`). -/
def div (r : ℚ → fp) : fp → fp → fp
  | fp.nan, _ => fp.nan
  | _, fp.nan => fp.nan
  | fp.fin x, fp.fin y =>
    if y = 0 then (if x = 0 then fp.nan else if 0 < x then fp.pinf else fp.ninf)
    else r (x / y)
  | fp.fin _, _ => fp.fin 0
  | fp.pinf, fp.fin y => if 0 ≤ y then fp.pinf else fp.ninf
  | fp.ninf, fp.fin y => if 0 ≤ y then fp.ninf else fp.pinf
  | _, _ => fp.nan

/-- The comparison `a > b`; false when either side is a NaN. -/
def gt : fp → fp → Bool
  | fp.nan, _ => false
  | _, fp.nan => false
  | fp.fin x, fp.fin y => decide (y < x)
  | fp.pinf, fp.pinf => false
  | fp.pinf, _ => true
  | fp.ninf, _ => false
  | fp.fin _, fp.ninf => true
  | fp.fin _, fp.pinf => false

/-- The comparison `a <= b`; false when either side is a NaN. -/
def le : fp → fp → Bool
  | fp.nan, _ => false
  | _, fp.nan => false
  | fp.fin x, fp.fin y => decide (x ≤ y)
  | fp.ninf, _ => true
  | fp.pinf, fp.pinf => true
  | fp.pinf, _ => false
  | fp.fin _, fp.pinf => true
  | fp.fin _, fp.ninf => false

/-- Source: `typedef double real_t;`. -/
abbrev real_t : Type := fp

/-- The `double` operation `a + b`. -/
def dadd (a b : real_t) : real_t := add round_double a b

/-- The `double` operation `a - b`. -/
def dsub (a b : real_t) : real_t := add round_double a (neg b)

/-- The `double` operation `a * b`. -/
def dmul (a b : real_t) : real_t := mul round_double a b

/-- The `double` operation `a / b`. -/
def ddiv (a b : real_t) : real_t := div round_double a b

/-- The `float` operation `a + b`. -/
def fadd (a b : fp) : fp := add round_float a b

/-- The `float` operation `a - b`. -/
def fsub (a b : fp) : fp := add round_float a (neg b)

/-- The conversion of an `int` to `double`. -/
def of_int (i : Int) : real_t := round_double (i : ℚ)

/-- The conversion of an `int` to `float`. -/
def float_of_int (i : Int) : fp := round_float (i : ℚ)

/-- The `double` constant a decimal literal denotes. -/
def literal (q : ℚ) : real_t := round_double q

/-- Source: `typedef struct { real_t real; real_t imag; } complex_t;`. -/
structure complex_t where
  real : real_t
  imag : real_t
  deriving DecidableEq

/-- Source: `#define COMPLEX(real, imag) (complex_t) { (real), (imag) }`. -/
def COMPLEX (real imag : real_t) : complex_t := ⟨real, imag⟩

/-- Source: `#define re(z) (z).real`. -/
def re (z : complex_t) : real_t := z.real

/-- Source: `#define im(z) (z).imag`. -/
def im (z : complex_t) : real_t := z.imag

/-- Source: `cadd`, lines 57-59. -/
def cadd (lhs rhs : complex_t) : complex_t :=
  COMPLEX (dadd lhs.real rhs.real) (dadd lhs.imag rhs.imag)

/-- Source: `csquared`, lines 61-63. -/
def csquared (z : complex_t) : complex_t :=
  COMPLEX (dsub (dmul (re z) (re z)) (dmul (im z) (im z)))
    (dmul (dmul (of_int 2) (re z)) (im z))

/-- Source: `clength_squared`, lines 65-67. -/
def clength_squared (z : complex_t) : real_t :=
  dsub (dmul (re z) (re z)) (dmul (im z) (im z))

/-- Source: `mandelbrot`, lines 73-81. -/
def mandelbrot (z c : complex_t) (n : Int) : Int :=
  if n < 0 then
    -1
  else if n = 0 ∨ gt (clength_squared z) (of_int 4) = true then
    0
  else
    mandelbrot (cadd (csquared z) c) c (n - 1) + 1
termination_by n.toNat
decreasing_by omega

/-- The number of updates `z = cadd(csquared(z), c)` made from `z` before `stop z` holds, at
most `k` of them. The recursion and the loops below are evaluated through it. -/
def escape_count (stop : complex_t → Bool) (c : complex_t) : Nat → complex_t → Nat
  | 0, _ => 0
  | k + 1, z => if stop z then 0 else escape_count stop c k (cadd (csquared z) c) + 1

/-- The iterative form of the evaluator in the words of the specification (not in the
source): the loop `while count < n and clength_squared(z) <= 4: z = csquared(z) + c;
count += 1`, started from the given `z` and `count`; its value is the final `count`. -/
def mandelbrot_loop (c : complex_t) (n : Int) (z : complex_t) (count : Int) : Int :=
  if count < n ∧ le (clength_squared z) (of_int 4) = true then
    mandelbrot_loop c n (cadd (csquared z) c) (count + 1)
  else
    count
termination_by (n - count).toNat
decreasing_by omega

/-- The iterative form of the evaluator in the words of the specification (not in the
source): `count = 0`, then the loop `mandelbrot_loop`, then `return count`. -/
def mandelbrot_iter (z c : complex_t) (n : Int) : Int :=
  mandelbrot_loop c n z 0

/-- The loop with the test of line 77 negated (not in the source):
`while count < n and not (clength_squared(z) > 4): z = csquared(z) + c; count += 1`. -/
def mandelbrot_loop_not_gt (c : complex_t) (n : Int) (z : complex_t) (count : Int) : Int :=
  if count < n ∧ ¬ gt (clength_squared z) (of_int 4) = true then
    mandelbrot_loop_not_gt c n (cadd (csquared z) c) (count + 1)
  else
    count
termination_by (n - count).toNat
decreasing_by omega

/-- The loop `mandelbrot_loop_not_gt` run from `count = 0` (not in the source). -/
def mandelbrot_iter_not_gt (z c : complex_t) (n : Int) : Int :=
  mandelbrot_loop_not_gt c n z 0

/-- Source: `#define remap(x, dim, l, r) (real_t) (x) * ((r) - (l)) / ((dim) - 1) + (l)`. -/
def remap (x dim : Int) (l r : real_t) : real_t :=
  dadd (ddiv (dmul (of_int x) (dsub r l)) (of_int (dim - 1))) l

/-- The conversion `(size_t) v`: the fractional part of `v` is discarded; a `v` that is
below zero, infinite or a NaN yields 0 here. -/
def size_t_of_real : real_t → Nat
  | fp.fin v => (Int.tdiv v.num (v.den : Int)).toNat
  | _ => 0

/-- Lines 93-96 of `render`: the point `c` of the cell in column `x` and row `y`. `sine` is
a `float`, so `-2 + sine` and `1 - sine` are `float` operations; the other operations are
`double` operations. -/
def render_point (width height : Int) (sine : fp) (x y : Int) : complex_t :=
  COMPLEX
    (remap x width
      (dadd (fadd (float_of_int (-2)) sine) (dmul (literal 0.75) sine))
      (dadd (fsub (float_of_int 1) sine) (dmul (literal 0.75) sine)))
    (remap y height
      (dadd (of_int (-1)) (dmul sine (literal 0.67)))
      (dsub (of_int 1) (dmul sine (literal 0.67))))

/-- Line 98 of `render`: `idx = (size_t) ((real_t) i / n * (NCHR - 1))`. -/
def render_idx (i n : Int) : Nat :=
  size_t_of_real (dmul (ddiv (of_int i) (of_int n)) (of_int (NCHR - 1)))

/-- Lines 93-98 of `render` and the read `chr[idx]` of line 99: the character of the cell in
column `x` and row `y`. -/
def render_glyph (width height n : Int) (sine : fp) (x y : Int) : Char :=
  let c := render_point width height sine x y
  let i := mandelbrot (COMPLEX (of_int 0) (of_int 0)) c n
  let idx := render_idx i n
  chr_at idx

/-- Lines 93-99 of `render`: the body of the inner loop, ending in the store
`buffer[y * width + x] = chr[idx]`. -/
def render_body (width height n : Int) (sine : fp) (buffer : Int → Char) (x y : Int) :
    Int → Char :=
  Function.update buffer (int_wrap (int_wrap (y * width) + x))
    (render_glyph width height n sine x y)

/-- Lines 92-100 of `render`: the inner loop, `x = 0, 1, .., width - 1`. -/
def render_row (width height n : Int) (sine : fp) (buffer : Int → Char) (y : Int) :
    Int → Char :=
  (List.range width.toNat).foldl
    (fun (b : Int → Char) (x : Nat) => render_body width height n sine b (x : Int) y) buffer

/-- Lines 91-101 of `render`: the outer loop, `y = height - 1, .., 1, 0`. -/
def render_fill (width height n : Int) (sine : fp) (buffer : Int → Char) : Int → Char :=
  (List.range height.toNat).reverse.foldl
    (fun (b : Int → Char) (y : Nat) => render_row width height n sine b (y : Int)) buffer

/-- Source: `render`, lines 88-105, with `sine` (lines 89-90) as a parameter. The result is the
buffer after the call and the characters written to standard output. -/
def render (width height n : Int) (sine : fp) (buffer : Int → Char) :
    (Int → Char) × List Char :=
  let buffer1 := render_fill width height n sine buffer
  (buffer1, render_emit width height buffer1)

end IEEE

/-! ## The escape-time evaluator -/

theorem mandelbrot_neg (z c : complex_t) (n : Int) (hn : n < 0) : mandelbrot z c n = -1 := by
  rw [mandelbrot, if_pos hn]

theorem mandelbrot_zero (z c : complex_t) : mandelbrot z c 0 = 0 := by
  rw [mandelbrot]; simp

theorem mandelbrot_escaped (z c : complex_t) (n : Int) (hn : 0 ≤ n)
    (hz : clength_squared z > 4) : mandelbrot z c n = 0 := by
  rw [mandelbrot, if_neg (not_lt.mpr hn), if_pos (Or.inr hz)]

theorem mandelbrot_step (z c : complex_t) (n : Int) (hn : 0 < n)
    (hz : ¬ clength_squared z > 4) :
    mandelbrot z c n = mandelbrot (cadd (csquared z) c) c (n - 1) + 1 := by
  rw [mandelbrot, if_neg (not_lt.mpr hn.le), if_neg]
  rintro (h | h)
  · omega
  · exact hz h

theorem orbit_succ_shift (z c : complex_t) (k : Nat) :
    orbit z c (k + 1) = orbit (cadd (csquared z) c) c k := by
  induction k with
  | zero => rfl
  | succ k ih => rw [orbit, ih]; rfl

/-- The result on a budget `n ≥ 0` is a count `m ≤ n` of orbit points that did not escape,
and the orbit point after them escaped unless the budget ran out. -/
theorem mandelbrot_spec (n : Nat) (z c : complex_t) :
    ∃ m : Nat, mandelbrot z c (n : Int) = (m : Int) ∧ m ≤ n ∧
      (∀ j, j < m → ¬ clength_squared (orbit z c j) > 4) ∧
      (m < n → clength_squared (orbit z c m) > 4) := by
  induction n generalizing z with
  | zero =>
    exact ⟨0, by simpa using mandelbrot_zero z c, le_refl _, by simp, by simp⟩
  | succ n ih =>
    by_cases hz : clength_squared z > 4
    · refine ⟨0, ?_, Nat.zero_le _, by simp, fun _ => hz⟩
      simpa using mandelbrot_escaped z c ((n + 1 : Nat) : Int) (by omega) hz
    · obtain ⟨m, hm, hle, hlt, hesc⟩ := ih (cadd (csquared z) c)
      refine ⟨m + 1, ?_, by omega, ?_, ?_⟩
      · rw [mandelbrot_step z c _ (by omega) hz]
        have : (((n + 1 : Nat) : Int) - 1) = (n : Int) := by omega
        rw [this, hm]; simp
      · intro j hj
        cases j with
        | zero => exact hz
        | succ j => rw [orbit_succ_shift]; exact hlt j (by omega)
      · intro h
        rw [orbit_succ_shift]; exact hesc (by omega)

theorem clength_squared_eq (z : complex_t) :
    clength_squared z = z.real ^ 2 - z.imag ^ 2 := by
  simp only [clength_squared, re, im]; ring

theorem mandelbrot_loop_eq (c : complex_t) (d : Nat) (n : Int) (z : complex_t) (count : Int)
    (hd : n - count = (d : Int)) :
    mandelbrot_loop c n z count = count + mandelbrot z c (n - count) := by
  induction d generalizing z count with
  | zero =>
    have h0 : n - count = 0 := by simpa using hd
    rw [mandelbrot_loop, if_neg (by omega), h0, mandelbrot_zero]; simp
  | succ d ih =>
    by_cases hz : clength_squared z > 4
    · rw [mandelbrot_loop, if_neg (fun h => absurd hz (not_lt.mpr h.2)),
        mandelbrot_escaped z c _ (by omega) hz]
      simp
    · rw [mandelbrot_loop, if_pos ⟨by omega, not_lt.mp hz⟩,
        ih (cadd (csquared z) c) (count + 1) (by push_cast at hd; omega),
        mandelbrot_step z c (n - count) (by omega) hz]
      have : n - (count + 1) = n - count - 1 := by omega
      rw [this]; ring

/-- C1: for a budget `n ≥ 0`, `mandelbrot z c n` is the least `k < n` whose orbit point `z_k`
has `re^2 - im^2 > 4`, and it is `n` when no orbit point `z_k` with `k < n` has. -/
theorem mandelbrot_least_escape (z c : complex_t) (n : Nat) :
    mandelbrot z c (n : Int) =
      if h : ∃ k, k < n ∧ (orbit z c k).real ^ 2 - (orbit z c k).imag ^ 2 > 4 then
        ((Nat.find h : Nat) : Int)
      else (n : Int) := by
  obtain ⟨m, hm, hle, hlt, hesc⟩ := mandelbrot_spec n z c
  simp only [clength_squared_eq] at hlt hesc
  rw [hm]
  split
  · rename_i h
    congr 1
    symm
    rw [Nat.find_eq_iff]
    refine ⟨⟨?_, ?_⟩, fun j hj hcon => hlt j hj hcon.2⟩
    · rcases Nat.lt_or_ge m n with hmn | hmn
      · exact hmn
      · obtain ⟨k, hk, hk4⟩ := h
        exact absurd hk4 (hlt k (by omega))
    · apply hesc
      rcases Nat.lt_or_ge m n with hmn | hmn
      · exact hmn
      · obtain ⟨k, hk, hk4⟩ := h
        exact absurd hk4 (hlt k (by omega))
  · rename_i h
    congr 1
    rcases Nat.lt_or_ge m n with hmn | hmn
    · exact absurd ⟨m, hmn, hesc hmn⟩ h
    · omega

theorem mandelbrot_bounds (z c : complex_t) (n : Int) (hn : 0 ≤ n) :
    0 ≤ mandelbrot z c n ∧ mandelbrot z c n ≤ n := by
  obtain ⟨k, rfl⟩ := Int.eq_ofNat_of_zero_le hn
  obtain ⟨m, hm, hle, -, -⟩ := mandelbrot_spec k z c
  rw [hm]; omega

/-- C3: for a budget `n ≥ 0` the result of `mandelbrot z c n` lies in `[0, n]`. -/
theorem mandelbrot_range (z c : complex_t) (n : Int) (hn : 0 ≤ n) :
    0 ≤ mandelbrot z c n ∧ mandelbrot z c n ≤ n :=
  mandelbrot_bounds z c n hn

theorem mandelbrot_range_witness :
    0 ≤ (2 : Int) ∧ 0 ≤ mandelbrot (COMPLEX 0 0) (COMPLEX 3 0) 2 ∧
      mandelbrot (COMPLEX 0 0) (COMPLEX 3 0) 2 ≤ 2 :=
  ⟨by decide, mandelbrot_range (COMPLEX 0 0) (COMPLEX 3 0) 2 (by decide)⟩

/-- C4: for a budget `n ≥ 0`, when `re^2 - im^2` of each orbit point `z_0 .. z_(n-1)` is at
most 4, `mandelbrot z c n` returns `n`. -/
theorem mandelbrot_bounded_orbit (z c : complex_t) (n : Int) (hn : 0 ≤ n)
    (hb : ∀ k : Nat, (k : Int) < n → (orbit z c k).real ^ 2 - (orbit z c k).imag ^ 2 ≤ 4) :
    mandelbrot z c n = n := by
  obtain ⟨k, rfl⟩ := Int.eq_ofNat_of_zero_le hn
  obtain ⟨m, hm, hle, -, hesc⟩ := mandelbrot_spec k z c
  rw [hm]
  rcases Nat.lt_or_ge m k with hmk | hmk
  · have h4 := hesc hmk
    rw [clength_squared_eq] at h4
    exact absurd h4 (not_lt.mpr (hb m (by omega)))
  · omega

theorem orbit_one_plus_i_bounded (k : Nat) (hk : (k : Int) < 3) :
    (orbit (COMPLEX 0 0) (COMPLEX 1 1) k).real ^ 2 -
      (orbit (COMPLEX 0 0) (COMPLEX 1 1) k).imag ^ 2 ≤ 4 := by
  have hk3 : k < 3 := by omega
  interval_cases k <;> norm_num [orbit, cadd, csquared, COMPLEX, re, im]

theorem mandelbrot_bounded_orbit_witness :
    (0 : Int) ≤ 3 ∧
      (∀ k : Nat, (k : Int) < 3 →
        (orbit (COMPLEX 0 0) (COMPLEX 1 1) k).real ^ 2 -
          (orbit (COMPLEX 0 0) (COMPLEX 1 1) k).imag ^ 2 ≤ 4) ∧
      mandelbrot (COMPLEX 0 0) (COMPLEX 1 1) 3 = 3 :=
  ⟨by decide, orbit_one_plus_i_bounded,
    mandelbrot_bounded_orbit (COMPLEX 0 0) (COMPLEX 1 1) 3 (by decide)
      orbit_one_plus_i_bounded⟩

/-- C5: for a budget `n < 0` (such as `-1`), `mandelbrot z c n` returns `-1` for every `z`
and `c`. -/
theorem mandelbrot_negative_budget (z c : complex_t) (n : Int) (hn : n < 0) :
    mandelbrot z c n = -1 :=
  mandelbrot_neg z c n hn

theorem mandelbrot_negative_budget_witness :
    (-1 : Int) < 0 ∧ clength_squared (COMPLEX 1000 0) > 4 ∧
      mandelbrot (COMPLEX 1000 0) (COMPLEX 0 0) (-1) = -1 :=
  ⟨by decide, by norm_num [clength_squared, COMPLEX, re, im],
    mandelbrot_negative_budget (COMPLEX 1000 0) (COMPLEX 0 0) (-1) (by decide)⟩

/-- C6: `mandelbrot z c 0` returns 0 for every `z` and `c`. -/
theorem mandelbrot_zero_budget (z c : complex_t) : mandelbrot z c 0 = 0 :=
  mandelbrot_zero z c

/-- In exact arithmetic, for a budget `n ≥ 0` the recursive `mandelbrot z c n` returns the
same number as the loop `count = 0; while count < n and clength_squared(z) <= 4:
z = csquared(z) + c; count += 1; return count`. -/
theorem mandelbrot_eq_iter (z c : complex_t) (n : Int) (hn : 0 ≤ n) :
    mandelbrot z c n = mandelbrot_iter z c n := by
  obtain ⟨k, rfl⟩ := Int.eq_ofNat_of_zero_le hn
  rw [mandelbrot_iter, mandelbrot_loop_eq c k (k : Int) z 0 (by simp)]
  simp

theorem mandelbrot_eq_iter_witness :
    (0 : Int) ≤ 5 ∧
      mandelbrot (COMPLEX 0 0) (COMPLEX 3 0) 5 = mandelbrot_iter (COMPLEX 0 0) (COMPLEX 3 0) 5 :=
  ⟨by decide, mandelbrot_eq_iter (COMPLEX 0 0) (COMPLEX 3 0) 5 (by decide)⟩

/-! ## The glyph index and the remap -/

theorem size_t_of_real_eq_floor (v : real_t) (hv : 0 ≤ v) :
    size_t_of_real v = Int.toNat ⌊v⌋ := by
  have hnum : 0 ≤ v.num := Rat.num_nonneg.mpr hv
  rw [size_t_of_real, Int.tdiv_eq_ediv hnum (by positivity), Rat.floor_def]

theorem render_idx_eq_floor (i n : Int) (hi : 0 ≤ i) (hn : 0 ≤ n) :
    render_idx i n = Int.toNat ⌊(i : ℚ) / (n : ℚ) * 11⌋ := by
  have h11 : (((NCHR - 1 : Int) : real_t)) = 11 := by norm_num [NCHR]
  have hi' : (0 : ℚ) ≤ (i : ℚ) := by exact_mod_cast hi
  have hn' : (0 : ℚ) ≤ (n : ℚ) := by exact_mod_cast hn
  rw [render_idx, h11, size_t_of_real_eq_floor _ (by positivity)]

theorem render_idx_full (n : Int) (hn : 1 ≤ n) : render_idx n n = 11 := by
  have hn' : (n : ℚ) ≠ 0 := by
    have : (1 : ℚ) ≤ (n : ℚ) := by exact_mod_cast hn
    positivity
  rw [render_idx_eq_floor n n (by omega) (by omega), div_self hn']
  norm_num
  rfl

theorem chr_at_last : chr_at 11 = '@' := by decide

theorem chr_at_first : chr_at 0 = '.' := by decide

theorem clength_squared_origin : ¬ clength_squared (COMPLEX 0 0) > 4 := by
  norm_num [clength_squared, COMPLEX, re, im]

theorem mandelbrot_origin_nat (n : Nat) :
    mandelbrot (COMPLEX 0 0) (COMPLEX 0 0) (n : Int) = (n : Int) := by
  induction n with
  | zero => simpa using mandelbrot_zero (COMPLEX 0 0) (COMPLEX 0 0)
  | succ n ih =>
    rw [mandelbrot_step _ _ _ (by omega) clength_squared_origin]
    have hz : cadd (csquared (COMPLEX 0 0)) (COMPLEX 0 0) = COMPLEX 0 0 := by
      simp [cadd, csquared, COMPLEX, re, im]
    have hn : ((n + 1 : Nat) : Int) - 1 = (n : Int) := by omega
    rw [hz, hn, ih]; simp

/-- C8: for a budget `n ≥ 0`, `mandelbrot (0+0i) (0+0i) n` returns `n`; and for `n ≥ 1` the
glyph index `render` computes from it, `floor (n / n * 11)`, is 11 and selects the last
character of the ramp, `@`. -/
theorem mandelbrot_origin_full_budget (n : Int) (hn : 0 ≤ n) :
    mandelbrot (COMPLEX 0 0) (COMPLEX 0 0) n = n ∧
      (1 ≤ n →
        ⌊(n : ℚ) / (n : ℚ) * 11⌋ = 11 ∧
        render_idx (mandelbrot (COMPLEX 0 0) (COMPLEX 0 0) n) n = 11 ∧
        chr_at (render_idx (mandelbrot (COMPLEX 0 0) (COMPLEX 0 0) n) n) = '@' ∧
        chr.getLast? = some '@') := by
  obtain ⟨k, rfl⟩ := Int.eq_ofNat_of_zero_le hn
  refine ⟨mandelbrot_origin_nat k, fun h1 => ?_⟩
  have hk : ((k : Int) : ℚ) ≠ 0 := by
    have : (1 : ℚ) ≤ ((k : Int) : ℚ) := by exact_mod_cast h1
    positivity
  rw [mandelbrot_origin_nat k, render_idx_full _ h1, div_self hk]
  exact ⟨by norm_num, rfl, chr_at_last, by decide⟩

theorem mandelbrot_origin_full_budget_witness :
    (0 : Int) ≤ 500 ∧ (1 : Int) ≤ 500 ∧
      mandelbrot (COMPLEX 0 0) (COMPLEX 0 0) 500 = 500 ∧
      chr_at (render_idx (mandelbrot (COMPLEX 0 0) (COMPLEX 0 0) 500) 500) = '@' :=
  ⟨by decide, by decide, (mandelbrot_origin_full_budget 500 (by decide)).1,
    ((mandelbrot_origin_full_budget 500 (by decide)).2 (by decide)).2.2.1⟩

theorem mandelbrot_origin_budget_one (c : complex_t) :
    mandelbrot (COMPLEX 0 0) c 1 = 1 := by
  rw [mandelbrot_step _ _ _ (by decide) clength_squared_origin]
  simp [mandelbrot_zero]

/-- C9, as stated, fails: with budget 1 and start point `0+0i`, the point `c = 3+0i` has
`re^2 - im^2 = 9 > 4`, yet the escape time is 1 and the glyph is `@`, not `.`. -/
theorem escape_time_not_zero_at_budget_one :
    ¬ ∀ c : complex_t, c.real ^ 2 - c.imag ^ 2 > 4 →
      mandelbrot (COMPLEX 0 0) c 1 = 0 ∧
        chr_at (render_idx (mandelbrot (COMPLEX 0 0) c 1) 1) = '.' := by
  intro h
  have h3 := (h (COMPLEX 3 0) (by norm_num [COMPLEX])).1
  rw [mandelbrot_origin_budget_one] at h3
  exact absurd h3 (by decide)

/-- C9, amended: with budget 1 and start point `0+0i`, for every `c` whose `re^2 - im^2`
exceeds 4 the escape time is 1 and the glyph is the last character of the ramp, `@`; the
escape time is 0, with the first character `.`, when the start point handed to the evaluator
is itself such a `c`. -/
theorem mandelbrot_budget_one (c : complex_t) (hc : c.real ^ 2 - c.imag ^ 2 > 4) :
    mandelbrot (COMPLEX 0 0) c 1 = 1 ∧
      chr_at (render_idx (mandelbrot (COMPLEX 0 0) c 1) 1) = '@' ∧
      mandelbrot c c 1 = 0 ∧
      chr_at (render_idx (mandelbrot c c 1) 1) = '.' := by
  have h0 : mandelbrot c c 1 = 0 :=
    mandelbrot_escaped c c 1 (by decide) (by rw [clength_squared_eq]; exact hc)
  have hidx0 : render_idx 0 1 = 0 := by
    rw [render_idx_eq_floor 0 1 (le_refl _) (by decide)]; norm_num
  rw [mandelbrot_origin_budget_one, h0, render_idx_full 1 (le_refl _), hidx0]
  exact ⟨rfl, chr_at_last, rfl, chr_at_first⟩

theorem mandelbrot_budget_one_witness :
    (3 : ℚ) ^ 2 - (0 : ℚ) ^ 2 > 4 ∧
      mandelbrot (COMPLEX 0 0) (COMPLEX 3 0) 1 = 1 ∧
      chr_at (render_idx (mandelbrot (COMPLEX 0 0) (COMPLEX 3 0) 1) 1) = '@' ∧
      mandelbrot (COMPLEX 3 0) (COMPLEX 3 0) 1 = 0 ∧
      chr_at (render_idx (mandelbrot (COMPLEX 3 0) (COMPLEX 3 0) 1) 1) = '.' :=
  ⟨by norm_num, mandelbrot_budget_one (COMPLEX 3 0) (by norm_num [COMPLEX])⟩

/-- C10: for `dim > 1` and all bounds `l`, `r`, `remap 0 dim l r = l` and
`remap (dim - 1) dim l r = r`, where `remap x dim l r = x * (r - l) / (dim - 1) + l` in exact
arithmetic. -/
theorem remap_endpoints (dim : Int) (l r : real_t) (hd : 1 < dim) :
    remap 0 dim l r = l ∧ remap (dim - 1) dim l r = r ∧
      ∀ x : Int, remap x dim l r = (x : ℚ) * (r - l) / ((dim : ℚ) - 1) + l := by
  have hne : (((dim - 1 : Int)) : ℚ) ≠ 0 := by
    have : (1 : ℚ) ≤ ((dim - 1 : Int) : ℚ) := by exact_mod_cast (by omega : 1 ≤ dim - 1)
    positivity
  refine ⟨by simp [remap], ?_, fun x => by simp [remap]⟩
  rw [remap]
  push_cast at hne ⊢
  rw [mul_div_assoc, mul_div_cancel₀ _ hne]
  ring

theorem remap_endpoints_witness :
    (1 : Int) < 80 ∧ remap 0 80 (-2) 1 = -2 ∧ remap (80 - 1) 80 (-2) 1 = 1 :=
  ⟨by decide, (remap_endpoints 80 (-2) 1 (by decide)).1,
    (remap_endpoints 80 (-2) 1 (by decide)).2.1⟩

/-! ## The frame renderer -/

/-- A loop whose every step either stores `g i` at index `i` or leaves index `i` alone ends
with `g i` at `i` once one step stored there, and leaves `i` alone when none did. -/
theorem foldl_stores {α : Type} (K : α → Prop) (gi : Char)
    (f : (Int → Char) → α → (Int → Char)) (i : Int) (L : List α)
    (hf : ∀ a ∈ L, ∀ b : Int → Char, (K a → f b a i = gi) ∧ (¬ K a → f b a i = b i))
    (buf : Int → Char) :
    ((buf i = gi ∨ ∃ a ∈ L, K a) → L.foldl f buf i = gi) ∧
      ((¬ ∃ a ∈ L, K a) → L.foldl f buf i = buf i) := by
  induction L generalizing buf with
  | nil =>
    refine ⟨fun h => ?_, fun _ => rfl⟩
    rcases h with h | ⟨a, ha, -⟩
    · exact h
    · simp at ha
  | cons a L ih =>
    have ih1 := ih (fun a1 h1 => hf a1 (List.mem_cons_of_mem a h1)) (f buf a)
    have ha := hf a (List.mem_cons_self a L) buf
    rw [List.foldl_cons]
    constructor
    · intro h
      apply ih1.1
      by_cases hK : K a
      · exact Or.inl (ha.1 hK)
      · rcases h with h | ⟨a1, h1, hK1⟩
        · exact Or.inl ((ha.2 hK).trans h)
        · rcases List.mem_cons.mp h1 with rfl | h1
          · exact absurd hK1 hK
          · exact Or.inr ⟨a1, h1, hK1⟩
    · intro h
      have hK : ¬ K a := fun hK => h ⟨a, List.mem_cons_self a L, hK⟩
      rw [ih1.2 (fun ⟨a1, h1, hK1⟩ => h ⟨a1, List.mem_cons_of_mem a h1, hK1⟩)]
      exact ha.2 hK

theorem cell_index_mod (width x y : Int) (hx0 : 0 ≤ x) (hx : x < width) :
    (y * width + x) % width = x := by
  rw [add_comm, Int.add_mul_emod_self, Int.emod_eq_of_lt hx0 hx]

theorem cell_index_div (width x y : Int) (hx0 : 0 ≤ x) (hx : x < width) :
    (y * width + x) / width = y := by
  rw [add_comm, Int.add_mul_ediv_right _ _ (by omega), Int.ediv_eq_zero_of_lt hx0 hx]
  simp

theorem int_wrap_eq (v : Int) (h0 : -2147483648 ≤ v) (h1 : v ≤ 2147483647) :
    int_wrap v = v := by
  unfold int_wrap
  omega

theorem cell_index_wrap (width x y : Int) (hx0 : 0 ≤ x) (hx : x < width) (hy0 : 0 ≤ y)
    (hb : y * width + width ≤ 2147483647) :
    int_wrap (int_wrap (y * width) + x) = y * width + x := by
  have hyw : 0 ≤ y * width := mul_nonneg hy0 (by omega)
  rw [int_wrap_eq (y * width) (by omega) (by omega), int_wrap_eq _ (by omega) (by omega)]

theorem row_bound (width height y : Int) (hw : 0 < width) (hy : y < height)
    (hb : width * height ≤ 2147483647) : y * width + width ≤ 2147483647 := by
  have h1 : (y + 1) * width ≤ height * width :=
    mul_le_mul_of_nonneg_right (by omega) hw.le
  have h2 : (y + 1) * width = y * width + width := by ring
  have h3 : height * width = width * height := mul_comm _ _
  omega

/-- The inner loop at row `y`, with `g x y` the character computed for a cell: an index
`y * width + x` with `0 ≤ x < width` holds the character of its cell afterwards, and every
other index is left alone. -/
theorem fill_row_apply (g : Int → Int → Char) (width : Int) (buffer : Int → Char)
    (y i : Int) (hy0 : 0 ≤ y) (hb : y * width + width ≤ 2147483647) :
    ((buffer i = g (i % width) (i / width) ∨
        ∃ x ∈ List.range width.toNat, i = y * width + (x : Int)) →
      (List.range width.toNat).foldl
        (fun (b : Int → Char) (x : Nat) =>
          Function.update b (int_wrap (int_wrap (y * width) + (x : Int))) (g (x : Int) y))
        buffer i = g (i % width) (i / width)) ∧
    ((¬ ∃ x ∈ List.range width.toNat, i = y * width + (x : Int)) →
      (List.range width.toNat).foldl
        (fun (b : Int → Char) (x : Nat) =>
          Function.update b (int_wrap (int_wrap (y * width) + (x : Int))) (g (x : Int) y))
        buffer i = buffer i) := by
  apply foldl_stores (fun x : Nat => i = y * width + (x : Int))
  intro x hx b
  have hxw : (x : Int) < width := by
    have := List.mem_range.mp hx
    omega
  have hidx := cell_index_wrap width x y (by omega) hxw hy0 hb
  constructor
  · intro hi
    show Function.update b (int_wrap (int_wrap (y * width) + (x : Int))) (g (x : Int) y) i = _
    rw [hidx, hi, Function.update_same,
      cell_index_mod width x y (by omega) hxw, cell_index_div width x y (by omega) hxw]
  · intro hi
    show Function.update b (int_wrap (int_wrap (y * width) + (x : Int))) (g (x : Int) y) i = _
    rw [hidx, Function.update_noteq hi]

/-- The two loops, with `g x y` the character computed for a cell: when `width * height`
fits an `int`, an index `y * width + x` with `0 ≤ x < width` and `0 ≤ y < height` holds the
character of its cell afterwards, and every other index is left alone. -/
theorem fill_apply (g : Int → Int → Char) (width height : Int) (buffer : Int → Char)
    (i : Int) (hw : 0 < width) (hb : width * height ≤ 2147483647) :
    ((∃ y ∈ (List.range height.toNat).reverse, ∃ x ∈ List.range width.toNat,
        i = (y : Int) * width + (x : Int)) →
      (List.range height.toNat).reverse.foldl
        (fun (b : Int → Char) (y : Nat) =>
          (List.range width.toNat).foldl
            (fun (b : Int → Char) (x : Nat) =>
              Function.update b (int_wrap (int_wrap ((y : Int) * width) + (x : Int)))
                (g (x : Int) (y : Int)))
            b)
        buffer i = g (i % width) (i / width)) ∧
    ((¬ ∃ y ∈ (List.range height.toNat).reverse, ∃ x ∈ List.range width.toNat,
        i = (y : Int) * width + (x : Int)) →
      (List.range height.toNat).reverse.foldl
        (fun (b : Int → Char) (y : Nat) =>
          (List.range width.toNat).foldl
            (fun (b : Int → Char) (x : Nat) =>
              Function.update b (int_wrap (int_wrap ((y : Int) * width) + (x : Int)))
                (g (x : Int) (y : Int)))
            b)
        buffer i = buffer i) := by
  have h := foldl_stores
    (fun y : Nat => ∃ x ∈ List.range width.toNat, i = (y : Int) * width + (x : Int))
    (g (i % width) (i / width))
    (fun (b : Int → Char) (y : Nat) =>
      (List.range width.toNat).foldl
        (fun (b : Int → Char) (x : Nat) =>
          Function.update b (int_wrap (int_wrap ((y : Int) * width) + (x : Int)))
            (g (x : Int) (y : Int)))
        b)
    i (List.range height.toNat).reverse
    (fun y hy b => by
      have hyh : (y : Int) < height := by
        have := List.mem_range.mp (List.mem_reverse.mp hy)
        omega
      have hrow := fill_row_apply g width b (y : Int) i (by omega)
        (row_bound width height y hw hyh hb)
      exact ⟨fun hK => hrow.1 (Or.inr hK), fun hK => hrow.2 hK⟩)
    buffer
  exact ⟨fun hi => h.1 (Or.inr hi), h.2⟩

theorem fill_cell (g : Int → Int → Char) (width height : Int) (buffer : Int → Char)
    (x y : Int) (hx0 : 0 ≤ x) (hx : x < width) (hy0 : 0 ≤ y) (hy : y < height)
    (hb : width * height ≤ 2147483647) :
    (List.range height.toNat).reverse.foldl
      (fun (b : Int → Char) (y : Nat) =>
        (List.range width.toNat).foldl
          (fun (b : Int → Char) (x : Nat) =>
            Function.update b (int_wrap (int_wrap ((y : Int) * width) + (x : Int)))
              (g (x : Int) (y : Int)))
          b)
      buffer (y * width + x) = g x y := by
  have h := (fill_apply g width height buffer (y * width + x) (by omega) hb).1
    ⟨y.toNat, by simp; omega, x.toNat, by simp; omega, by
      rw [Int.toNat_of_nonneg hy0, Int.toNat_of_nonneg hx0]⟩
  rw [h, cell_index_mod width x y hx0 hx, cell_index_div width x y hx0 hx]

theorem render_fill_cell (width height n : Int) (sine : real_t) (buffer : Int → Char)
    (x y : Int) (hx0 : 0 ≤ x) (hx : x < width) (hy0 : 0 ≤ y) (hy : y < height)
    (hb : width * height ≤ 2147483647) :
    render_fill width height n sine buffer (y * width + x) =
      render_glyph width height n sine x y :=
  fill_cell (render_glyph width height n sine) width height buffer x y hx0 hx hy0 hy hb

theorem render_fill_cell_double (width height n : Int) (sine : IEEE.fp) (buffer : Int → Char)
    (x y : Int) (hx0 : 0 ≤ x) (hx : x < width) (hy0 : 0 ≤ y) (hy : y < height)
    (hb : width * height ≤ 2147483647) :
    IEEE.render_fill width height n sine buffer (y * width + x) =
      IEEE.render_glyph width height n sine x y :=
  fill_cell (IEEE.render_glyph width height n sine) width height buffer x y hx0 hx hy0 hy hb

theorem render_double_emit (width height n : Int) (s : IEEE.fp) (buffer : Int → Char) :
    (IEEE.render width height n s buffer).2 =
      render_emit width height (IEEE.render width height n s buffer).1 := rfl

theorem area_wrap (width height : Int) (hw : 0 ≤ width) (hh : 0 ≤ height)
    (hb : width * height ≤ 2147483647) : int_wrap (width * height) = width * height :=
  int_wrap_eq _ (by have := mul_nonneg hw hh; omega) hb

theorem render_point_eq (width height : Int) (s : real_t) (x y : Int) :
    render_point width height s x y =
      COMPLEX (remap x width (-2 + 1.75 * s) (1 - 0.25 * s))
        (remap y height (-1 + 0.67 * s) (1 - 0.67 * s)) := by
  rw [render_point]
  congr 2 <;> ring

theorem render_idx_le (i n : Int) (hi : 0 ≤ i) (hin : i ≤ n) (hn : 1 ≤ n) :
    render_idx i n ≤ 11 := by
  rw [render_idx_eq_floor i n hi (by omega)]
  have hn' : (0 : ℚ) < (n : ℚ) := by exact_mod_cast (by omega : 0 < n)
  have hin' : (i : ℚ) ≤ (n : ℚ) := by exact_mod_cast hin
  have h1 : (i : ℚ) / (n : ℚ) ≤ 1 := (div_le_one hn').mpr hin'
  have h2 : ⌊(i : ℚ) / (n : ℚ) * 11⌋ ≤ 11 := by
    have : (i : ℚ) / (n : ℚ) * 11 ≤ ((11 : Int) : ℚ) := by push_cast; linarith
    exact Int.le_of_lt_add_one (Int.floor_lt.mpr (by push_cast at this ⊢; linarith))
  omega

theorem chr_get_eq_chr_at (idx : Nat) (h : idx ≤ 11) : chr[idx]? = some (chr_at idx) := by
  have hlen : idx < chr.length := by
    have : chr.length = 12 := rfl
    omega
  rw [chr_at, List.getD_eq_getElem _ _ hlen, List.getElem?_eq_getElem hlen]

/-- C2, amended: for `width ≥ 2` and `height ≥ 2` with `width * height ≤ INT_MAX`, a budget
`n ≥ 1` and an animation value `s`, with the arithmetic of `render` carried out exactly, after
`render` the buffer holds at index `y * width + x` (for `0 ≤ x < width`, `0 ≤ y < height`) the
ramp character `chr[floor (mandelbrot (0+0i) c n / n * 11)]` with
`c = (remap x width (-2 + 1.75 s) (1 - 0.25 s), remap y height (-1 + 0.67 s) (1 - 0.67 s))`,
and the characters emitted are the buffer cells `0 .. width * height - 1` in index order. In
the program's arithmetic the buffer holds at that index the character `chr[idx]` computed by
lines 93-98 for the cell, and the emission is the same. -/
theorem render_stores_and_emits (width height n : Int) (s : real_t) (buffer : Int → Char)
    (hw : 2 ≤ width) (hh : 2 ≤ height) (hb : width * height ≤ 2147483647) (hn : 1 ≤ n) :
    (∀ x y : Int, 0 ≤ x → x < width → 0 ≤ y → y < height →
      chr[Int.toNat ⌊((mandelbrot (COMPLEX 0 0)
          (COMPLEX (remap x width (-2 + 1.75 * s) (1 - 0.25 * s))
            (remap y height (-1 + 0.67 * s) (1 - 0.67 * s))) n : Int) : ℚ) / (n : ℚ) * 11⌋]? =
        some ((render width height n s buffer).1 (y * width + x))) ∧
    (render width height n s buffer).2 =
      (List.range (width * height).toNat).map
        (fun i : Nat => (render width height n s buffer).1 (i : Int)) ∧
    (∀ (sine : IEEE.fp) (x y : Int), 0 ≤ x → x < width → 0 ≤ y → y < height →
      (IEEE.render width height n sine buffer).1 (y * width + x) =
        chr_at (IEEE.render_idx
          (IEEE.mandelbrot (IEEE.COMPLEX (IEEE.of_int 0) (IEEE.of_int 0))
            (IEEE.render_point width height sine x y) n) n)) ∧
    (∀ sine : IEEE.fp, (IEEE.render width height n sine buffer).2 =
      (List.range (width * height).toNat).map
        (fun i : Nat => (IEEE.render width height n sine buffer).1 (i : Int))) := by
  refine ⟨?_, ?_, ?_, ?_⟩
  rotate_left 2
  · intro sine x y hx0 hx hy0 hy
    have hr : (IEEE.render width height n sine buffer).1 =
        IEEE.render_fill width height n sine buffer := rfl
    rw [hr, render_fill_cell_double width height n sine buffer x y hx0 hx hy0 hy hb]
    rfl
  · intro sine
    rw [render_double_emit, render_emit, area_wrap width height (by omega) (by omega) hb]
  · intro x y hx0 hx hy0 hy
    have hr : (render width height n s buffer).1 = render_fill width height n s buffer := rfl
    rw [hr, render_fill_cell width height n s buffer x y hx0 hx hy0 hy hb, render_glyph,
      render_point_eq]
    generalize hc : COMPLEX (remap x width (-2 + 1.75 * s) (1 - 0.25 * s))
      (remap y height (-1 + 0.67 * s) (1 - 0.67 * s)) = c
    obtain ⟨h0, hle⟩ := mandelbrot_bounds (COMPLEX 0 0) c n (by omega)
    rw [← render_idx_eq_floor _ n h0 (by omega)]
    exact chr_get_eq_chr_at _ (render_idx_le _ n h0 hle hn)
  · have hr : (render width height n s buffer).2 =
        render_emit width height (render width height n s buffer).1 := rfl
    rw [hr, render_emit, area_wrap width height (by omega) (by omega) hb]

theorem render_stores_and_emits_witness :
    (2 : Int) ≤ 4 ∧ (2 : Int) ≤ 2 ∧ (4 : Int) * 2 ≤ 2147483647 ∧ (1 : Int) ≤ 1 ∧
      chr[Int.toNat ⌊((mandelbrot (COMPLEX 0 0)
          (COMPLEX (remap 3 4 (-2 + 1.75 * (1 / 2)) (1 - 0.25 * (1 / 2)))
            (remap 1 2 (-1 + 0.67 * (1 / 2)) (1 - 0.67 * (1 / 2)))) 1 : Int) : ℚ) /
            ((1 : Int) : ℚ) * 11⌋]? =
        some ((render 4 2 1 (1 / 2) (fun _ => 'x')).1 (1 * 4 + 3)) ∧
      (render 4 2 1 (1 / 2) (fun _ => 'x')).2 =
        (List.range ((4 : Int) * 2).toNat).map
          (fun i : Nat => (render 4 2 1 (1 / 2) (fun _ => 'x')).1 (i : Int)) :=
  ⟨by decide, by decide, by decide, by decide,
    (render_stores_and_emits 4 2 1 (1 / 2) (fun _ => 'x')
      (by decide) (by decide) (by decide) (by decide)).1 3 1 (by decide) (by decide)
      (by decide) (by decide),
    (render_stores_and_emits 4 2 1 (1 / 2) (fun _ => 'x')
      (by decide) (by decide) (by decide) (by decide)).2.1⟩

/-! ## Further properties of the evaluator and the glyph index -/

theorem render_idx_mono (iterA iterB n : Int) (hn : 1 ≤ n) (hA : 0 ≤ iterA)
    (hAB : iterA ≤ iterB) : render_idx iterA n ≤ render_idx iterB n := by
  rw [render_idx_eq_floor iterA n hA (by omega),
    render_idx_eq_floor iterB n (by omega) (by omega)]
  have hn' : (0 : ℚ) < (n : ℚ) := by exact_mod_cast (by omega : 0 < n)
  have hAB' : (iterA : ℚ) ≤ (iterB : ℚ) := by exact_mod_cast hAB
  have h : (iterA : ℚ) / (n : ℚ) * 11 ≤ (iterB : ℚ) / (n : ℚ) * 11 := by
    have := div_le_div_of_nonneg_right hAB' hn'.le
    linarith
  exact Int.toNat_le_toNat (Int.floor_mono h)

/-- C11: for a budget `n ≥ 1` and iteration counts `0 ≤ iterA ≤ iterB`, the glyph index of
`render`, `floor (i / n * 11)`, satisfies `idx iterA ≤ idx iterB`. -/
theorem glyph_index_monotone (iterA iterB n : Int) (hn : 1 ≤ n) (hA : 0 ≤ iterA)
    (hAB : iterA ≤ iterB) :
    render_idx iterA n ≤ render_idx iterB n ∧
      ⌊(iterA : ℚ) / (n : ℚ) * 11⌋ ≤ ⌊(iterB : ℚ) / (n : ℚ) * 11⌋ ∧
      render_idx iterA n = Int.toNat ⌊(iterA : ℚ) / (n : ℚ) * 11⌋ ∧
      render_idx iterB n = Int.toNat ⌊(iterB : ℚ) / (n : ℚ) * 11⌋ := by
  refine ⟨render_idx_mono iterA iterB n hn hA hAB, ?_,
    render_idx_eq_floor iterA n hA (by omega),
    render_idx_eq_floor iterB n (by omega) (by omega)⟩
  have hn' : (0 : ℚ) < (n : ℚ) := by exact_mod_cast (by omega : 0 < n)
  have hAB' : (iterA : ℚ) ≤ (iterB : ℚ) := by exact_mod_cast hAB
  have := div_le_div_of_nonneg_right hAB' hn'.le
  exact Int.floor_mono (by linarith)

theorem glyph_index_monotone_witness :
    (1 : Int) ≤ 500 ∧ (0 : Int) ≤ 45 ∧ (45 : Int) ≤ 46 ∧
      render_idx 45 500 ≤ render_idx 46 500 :=
  ⟨by decide, by decide, by decide,
    (glyph_index_monotone 45 46 500 (by decide) (by decide) (by decide)).1⟩

/-- C16, amended: for every `z`, `clength_squared z` is computed as `re z * re z -
im z * im z`, which is the real part of `csquared z`, in the program's arithmetic as in exact
arithmetic; in exact arithmetic it is `re z ^ 2 - im z ^ 2` and equals the true squared
magnitude `re z ^ 2 + im z ^ 2` exactly when `im z = 0`. -/
theorem clength_squared_anomaly (z : complex_t) :
    clength_squared z = re z ^ 2 - im z ^ 2 ∧
      clength_squared z = re (csquared z) ∧
      (clength_squared z = re z ^ 2 + im z ^ 2 ↔ im z = 0) ∧
      (∀ w : IEEE.complex_t,
        IEEE.clength_squared w =
          IEEE.dsub (IEEE.dmul (IEEE.re w) (IEEE.re w)) (IEEE.dmul (IEEE.im w) (IEEE.im w)) ∧
        IEEE.clength_squared w = IEEE.re (IEEE.csquared w)) := by
  refine ⟨by simp only [clength_squared]; ring, rfl, ?_, fun w => ⟨rfl, rfl⟩⟩
  simp only [clength_squared]
  constructor
  · intro h
    have h2 : im z * im z = 0 := by linarith [h, sq (re z), sq (im z)]
    exact mul_self_eq_zero.mp h2
  · intro h
    rw [h]; ring

/-- C17: for a budget `n ≥ 1` and every point `c`, the glyph index of `render`,
`floor (mandelbrot (0+0i) c n / n * (NCHR - 1))`, lies in `[0, 11]`, so the read `chr[idx]`
of the ramp of 12 characters is in bounds. -/
theorem glyph_index_in_bounds (c : complex_t) (n : Int) (hn : 1 ≤ n) :
    0 ≤ ⌊((mandelbrot (COMPLEX 0 0) c n : Int) : ℚ) / (n : ℚ) * (((NCHR - 1 : Int)) : ℚ)⌋ ∧
      ⌊((mandelbrot (COMPLEX 0 0) c n : Int) : ℚ) / (n : ℚ) * (((NCHR - 1 : Int)) : ℚ)⌋ ≤ 11 ∧
      render_idx (mandelbrot (COMPLEX 0 0) c n) n ≤ 11 ∧
      chr.length = 12 ∧
      render_idx (mandelbrot (COMPLEX 0 0) c n) n < chr.length ∧
      (chr[render_idx (mandelbrot (COMPLEX 0 0) c n) n]?).isSome = true := by
  obtain ⟨h0, hle⟩ := mandelbrot_bounds (COMPLEX 0 0) c n (by omega)
  have hidx := render_idx_le _ n h0 hle hn
  have h11 : (((NCHR - 1 : Int)) : ℚ) = 11 := by norm_num [NCHR]
  have hn' : (0 : ℚ) < (n : ℚ) := by exact_mod_cast (by omega : 0 < n)
  have h0' : (0 : ℚ) ≤ ((mandelbrot (COMPLEX 0 0) c n : Int) : ℚ) := by exact_mod_cast h0
  have hfl := render_idx_eq_floor _ n h0 (by omega : 0 ≤ n)
  have hlen : chr.length = 12 := rfl
  rw [h11]
  refine ⟨Int.floor_nonneg.mpr (by positivity), by omega, hidx, hlen, by omega, ?_⟩
  rw [chr_get_eq_chr_at _ hidx]; rfl

theorem glyph_index_in_bounds_witness :
    (1 : Int) ≤ 500 ∧ render_idx (mandelbrot (COMPLEX 0 0) (COMPLEX 3 0) 500) 500 ≤ 11 :=
  ⟨by decide, (glyph_index_in_bounds (COMPLEX 3 0) 500 (by decide)).2.2.1⟩

theorem mandelbrot_min_nat (z c : complex_t) (n m : Nat) (hnm : n ≤ m) :
    mandelbrot z c (n : Int) = min (n : Int) (mandelbrot z c (m : Int)) := by
  obtain ⟨a, ha, hale, halt, haesc⟩ := mandelbrot_spec n z c
  obtain ⟨b, hb, hble, hblt, hbesc⟩ := mandelbrot_spec m z c
  rw [ha, hb]
  have hab : a = min n b := by
    rcases Nat.lt_or_ge b n with hbn | hbn
    · have hesc := hbesc (by omega)
      have h1 : a ≤ b := by
        by_contra hcon
        exact halt b (by omega) hesc
      have h2 : ¬ a < b := fun hlt => hblt a hlt (haesc (by omega))
      omega
    · have h2 : ¬ a < n := fun hlt => hblt a (by omega) (haesc hlt)
      omega
  rw [hab]; push_cast; rfl

/-- C18: for budgets `0 ≤ n ≤ m`, `mandelbrot z c n = min n (mandelbrot z c m)`; in
particular the escape time does not decrease when the budget grows. -/
theorem mandelbrot_budget_stable (z c : complex_t) (n m : Int) (hn : 0 ≤ n) (hnm : n ≤ m) :
    mandelbrot z c n = min n (mandelbrot z c m) ∧ mandelbrot z c n ≤ mandelbrot z c m := by
  obtain ⟨k, rfl⟩ := Int.eq_ofNat_of_zero_le hn
  obtain ⟨j, rfl⟩ := Int.eq_ofNat_of_zero_le (le_trans hn hnm)
  have h := mandelbrot_min_nat z c k j (by omega)
  exact ⟨h, by rw [h]; exact min_le_right _ _⟩

theorem mandelbrot_budget_stable_witness :
    (0 : Int) ≤ 1 ∧ (1 : Int) ≤ 5 ∧
      mandelbrot (COMPLEX 0 0) (COMPLEX 3 0) 1 =
        min 1 (mandelbrot (COMPLEX 0 0) (COMPLEX 3 0) 5) :=
  ⟨by decide, by decide,
    (mandelbrot_budget_stable (COMPLEX 0 0) (COMPLEX 3 0) 1 5 (by decide) (by decide)).1⟩

theorem chr_at_eq_last_iff (idx : Nat) (h : idx ≤ 11) : chr_at idx = '@' ↔ idx = 11 := by
  interval_cases idx <;> decide

theorem floor_eq_eleven_iff (i n : Int) (hn : 1 ≤ n) (hin : i ≤ n) :
    ⌊(i : ℚ) / (n : ℚ) * 11⌋ = 11 ↔ i = n := by
  have hn' : (0 : ℚ) < (n : ℚ) := by exact_mod_cast (by omega : 0 < n)
  constructor
  · intro h
    by_contra hne
    have hlt : (i : ℚ) < (n : ℚ) := by exact_mod_cast (lt_of_le_of_ne hin hne)
    have h1 : (i : ℚ) / (n : ℚ) < 1 := (div_lt_one hn').mpr hlt
    have h2 : ⌊(i : ℚ) / (n : ℚ) * 11⌋ < 11 :=
      Int.floor_lt.mpr (by push_cast; linarith)
    omega
  · rintro rfl
    rw [div_self hn'.ne']
    norm_num

/-- C19: for a budget `n ≥ 1` and an iteration count `0 ≤ i ≤ n`, the glyph index
`floor (i / n * 11)` is 11 exactly when `i = n`; so the cell of `render` shows the last
character of the ramp, `@`, exactly when `mandelbrot` used up the whole budget. -/
theorem glyph_index_last_iff (i n : Int) (hn : 1 ≤ n) (hi : 0 ≤ i) (hin : i ≤ n) :
    (⌊(i : ℚ) / (n : ℚ) * 11⌋ = 11 ↔ i = n) ∧
      (render_idx i n = 11 ↔ i = n) ∧
      (chr_at (render_idx i n) = '@' ↔ i = n) ∧
      ∀ (width height : Int) (s : real_t) (x y : Int),
        render_glyph width height n s x y = '@' ↔
          mandelbrot (COMPLEX 0 0) (render_point width height s x y) n = n := by
  have key : ∀ j : Int, 0 ≤ j → j ≤ n → (render_idx j n = 11 ↔ j = n) := by
    intro j hj hjn
    rw [render_idx_eq_floor j n hj (by omega), ← floor_eq_eleven_iff j n hn hjn]
    have h0 : 0 ≤ ⌊(j : ℚ) / (n : ℚ) * 11⌋ := by
      have hn' : (0 : ℚ) < (n : ℚ) := by exact_mod_cast (by omega : 0 < n)
      have hj' : (0 : ℚ) ≤ (j : ℚ) := by exact_mod_cast hj
      exact Int.floor_nonneg.mpr (by positivity)
    omega
  refine ⟨floor_eq_eleven_iff i n hn hin, key i hi hin, ?_, ?_⟩
  · rw [chr_at_eq_last_iff _ (render_idx_le i n hi hin hn)]
    exact key i hi hin
  · intro width height s x y
    obtain ⟨h0, hle⟩ :=
      mandelbrot_bounds (COMPLEX 0 0) (render_point width height s x y) n (by omega)
    rw [render_glyph, chr_at_eq_last_iff _ (render_idx_le _ n h0 hle hn)]
    exact key _ h0 hle

theorem glyph_index_last_iff_witness :
    (1 : Int) ≤ 500 ∧ (0 : Int) ≤ 499 ∧ (499 : Int) ≤ 500 ∧
      (render_idx 499 500 = 11 ↔ (499 : Int) = 500) :=
  ⟨by decide, by decide, by decide,
    (glyph_index_last_iff 499 500 (by decide) (by decide) (by decide)).2.1⟩

/-! ## The view of the complex plane -/

theorem remap_affine (x dim : Int) (l r : real_t) :
    remap x dim l r = l + (x : ℚ) / ((dim : ℚ) - 1) * (r - l) := by
  rw [remap]; push_cast; ring

theorem remap_first (dim : Int) (l r : real_t) : remap 0 dim l r = l := by
  simp [remap]

theorem remap_last (dim : Int) (l r : real_t) (hd : 2 ≤ dim) : remap (dim - 1) dim l r = r := by
  have hne : (dim : ℚ) - 1 ≠ 0 := by
    have : (2 : ℚ) ≤ (dim : ℚ) := by exact_mod_cast hd
    intro h; linarith
  rw [remap_affine]; push_cast
  rw [div_self hne]; ring

theorem remap_mem (x dim : Int) (l r : real_t) (hd : 2 ≤ dim) (hx0 : 0 ≤ x) (hx : x < dim)
    (hlr : l ≤ r) : l ≤ remap x dim l r ∧ remap x dim l r ≤ r := by
  have hd' : (0 : ℚ) < (dim : ℚ) - 1 := by
    have : (2 : ℚ) ≤ (dim : ℚ) := by exact_mod_cast hd
    linarith
  have hx0' : (0 : ℚ) ≤ (x : ℚ) := by exact_mod_cast hx0
  have hx' : (x : ℚ) ≤ (dim : ℚ) - 1 := by
    have : (x : ℚ) ≤ ((dim - 1 : Int) : ℚ) := by exact_mod_cast (by omega : x ≤ dim - 1)
    push_cast at this; exact this
  have ht0 : 0 ≤ (x : ℚ) / ((dim : ℚ) - 1) := div_nonneg hx0' hd'.le
  have ht1 : (x : ℚ) / ((dim : ℚ) - 1) ≤ 1 := (div_le_one hd').mpr hx'
  have hrl : 0 ≤ r - l := by linarith
  rw [remap_affine]
  constructor
  · have := mul_nonneg ht0 hrl
    linarith
  · have := mul_le_of_le_one_left hrl ht1
    linarith

/-- C13, amended: for every animation value `s`, `width ≥ 2` and `height ≥ 2`, with the
arithmetic of lines 93-96 carried out exactly, the point of pixel `(x, y)` is the affine
image of `x` from `[0, width - 1]` onto `[-2 + 1.75 s, 1 - 0.25 s]` and
of `y` from `[0, height - 1]` onto `[-1 + 0.67 s, 1 - 0.67 s]`: column 0 has real part
`-2 + 1.75 s`, column `width - 1` has `1 - 0.25 s`, row 0 has imaginary part `-1 + 0.67 s`
and row `height - 1` has `1 - 0.67 s`. -/
theorem render_point_affine (width height : Int) (s : real_t) (hw : 2 ≤ width)
    (hh : 2 ≤ height) :
    (∀ x y : Int,
      (render_point width height s x y).real =
        (-2 + 1.75 * s) + (x : ℚ) / ((width : ℚ) - 1) * ((1 - 0.25 * s) - (-2 + 1.75 * s)) ∧
      (render_point width height s x y).imag =
        (-1 + 0.67 * s) + (y : ℚ) / ((height : ℚ) - 1) * ((1 - 0.67 * s) - (-1 + 0.67 * s))) ∧
    (∀ y : Int, (render_point width height s 0 y).real = -2 + 1.75 * s) ∧
    (∀ y : Int, (render_point width height s (width - 1) y).real = 1 - 0.25 * s) ∧
    (∀ x : Int, (render_point width height s x 0).imag = -1 + 0.67 * s) ∧
    (∀ x : Int, (render_point width height s x (height - 1)).imag = 1 - 0.67 * s) := by
  refine ⟨fun x y => ?_, fun y => ?_, fun y => ?_, fun x => ?_, fun x => ?_⟩
  · rw [render_point_eq, COMPLEX, remap_affine, remap_affine]
    exact ⟨rfl, rfl⟩
  · rw [render_point_eq, COMPLEX, remap_first]
  · rw [render_point_eq, COMPLEX, remap_last _ _ _ hw]
  · rw [render_point_eq, COMPLEX, remap_first]
  · rw [render_point_eq, COMPLEX, remap_last _ _ _ hh]

theorem render_point_affine_witness :
    (2 : Int) ≤ 80 ∧ (2 : Int) ≤ 24 ∧
      (render_point 80 24 (1 / 2) (80 - 1) 0).real = 1 - 0.25 * (1 / 2) ∧
      (render_point 80 24 (1 / 2) 0 (24 - 1)).imag = 1 - 0.67 * (1 / 2) :=
  ⟨by decide, by decide,
    (render_point_affine 80 24 (1 / 2) (by decide) (by decide)).2.2.1 0,
    (render_point_affine 80 24 (1 / 2) (by decide) (by decide)).2.2.2.2 0⟩

/-- C20, amended: for an animation value `s` in `[0, 1]`, `width ≥ 2`, `height ≥ 2` and a
pixel `0 ≤ x < width`, `0 ≤ y < height`, with the arithmetic of lines 93-96 carried out
exactly, the point of the pixel has `-2 ≤ re ≤ 1` and
`-1 ≤ im ≤ 1`; and the left bound `-2 + 1.75 s` lies strictly below the right bound
`1 - 0.25 s`, the lower bound `-1 + 0.67 s` strictly below the upper bound `1 - 0.67 s`. -/
theorem render_point_in_view (width height : Int) (s : real_t) (x y : Int)
    (hs0 : 0 ≤ s) (hs1 : s ≤ 1) (hw : 2 ≤ width) (hh : 2 ≤ height)
    (hx0 : 0 ≤ x) (hx : x < width) (hy0 : 0 ≤ y) (hy : y < height) :
    (-2 ≤ (render_point width height s x y).real ∧
      (render_point width height s x y).real ≤ 1) ∧
    (-1 ≤ (render_point width height s x y).imag ∧
      (render_point width height s x y).imag ≤ 1) ∧
    -2 + 1.75 * s < 1 - 0.25 * s ∧ -1 + 0.67 * s < 1 - 0.67 * s := by
  have hre : -2 + 1.75 * s < 1 - 0.25 * s := by norm_num; linarith
  have him : -1 + 0.67 * s < 1 - 0.67 * s := by norm_num; linarith
  have h1 := remap_mem x width _ _ hw hx0 hx hre.le
  have h2 := remap_mem y height _ _ hh hy0 hy him.le
  rw [render_point_eq, COMPLEX]
  simp only
  have b1 : (-2 : ℚ) ≤ -2 + 1.75 * s := by norm_num; linarith
  have b2 : 1 - 0.25 * s ≤ (1 : ℚ) := by norm_num; linarith
  have b3 : (-1 : ℚ) ≤ -1 + 0.67 * s := by norm_num; linarith
  have b4 : 1 - 0.67 * s ≤ (1 : ℚ) := by norm_num; linarith
  exact ⟨⟨le_trans b1 h1.1, le_trans h1.2 b2⟩, ⟨le_trans b3 h2.1, le_trans h2.2 b4⟩, hre, him⟩

theorem render_point_in_view_witness :
    (0 : ℚ) ≤ 1 ∧ (1 : ℚ) ≤ 1 ∧ (2 : Int) ≤ 80 ∧ (2 : Int) ≤ 24 ∧
      (-2 ≤ (render_point 80 24 1 79 23).real ∧ (render_point 80 24 1 79 23).real ≤ 1) ∧
      (-1 ≤ (render_point 80 24 1 79 23).imag ∧ (render_point 80 24 1 79 23).imag ≤ 1) :=
  ⟨by norm_num, by norm_num, by decide, by decide,
    (render_point_in_view 80 24 1 79 23 (by norm_num) (by norm_num) (by decide) (by decide)
      (by decide) (by decide) (by decide) (by decide)).1,
    (render_point_in_view 80 24 1 79 23 (by norm_num) (by norm_num) (by decide) (by decide)
      (by decide) (by decide) (by decide) (by decide)).2.1⟩

/-! ## The emitted frame -/

theorem index_cell (width height i : Int) (hw : 0 < width) (hi0 : 0 ≤ i)
    (hi : i < width * height) :
    0 ≤ i % width ∧ i % width < width ∧ 0 ≤ i / width ∧ i / width < height ∧
      i / width * width + i % width = i :=
  ⟨Int.emod_nonneg i (by omega), Int.emod_lt_of_pos i hw, Int.ediv_nonneg hi0 hw.le,
    Int.ediv_lt_of_lt_mul hw (by rw [mul_comm] at hi; exact hi), Int.ediv_add_emod' i width⟩

theorem render_fill_index (width height n : Int) (sine : real_t) (buffer : Int → Char)
    (i : Int) (hw : 0 < width) (hi0 : 0 ≤ i) (hi : i < width * height)
    (hb : width * height ≤ 2147483647) :
    render_fill width height n sine buffer i =
      render_glyph width height n sine (i % width) (i / width) := by
  obtain ⟨hx0, hx, hy0, hy, hxy⟩ := index_cell width height i hw hi0 hi
  have h := render_fill_cell width height n sine buffer (i % width) (i / width)
    hx0 hx hy0 hy hb
  rw [hxy] at h
  exact h

theorem chr_at_mem (idx : Nat) (h : idx ≤ 11) : chr_at idx ∈ chr := by
  interval_cases idx <;> decide

theorem render_glyph_mem (width height n : Int) (sine : real_t) (x y : Int) (hn : 1 ≤ n) :
    render_glyph width height n sine x y ∈ chr := by
  obtain ⟨h0, hle⟩ :=
    mandelbrot_bounds (COMPLEX 0 0) (render_point width height sine x y) n (by omega)
  exact chr_at_mem _ (render_idx_le _ n h0 hle hn)

theorem render_emit_length (width height : Int) (buffer : Int → Char) :
    (render_emit width height buffer).length = (int_wrap (width * height)).toNat := by
  rw [render_emit, List.length_map, List.length_range]

theorem render_emit_get (width height : Int) (buffer : Int → Char) (k : Nat)
    (hk : k < (int_wrap (width * height)).toNat) :
    (render_emit width height buffer)[k]? = some (buffer (k : Int)) := by
  rw [render_emit, List.getElem?_map, List.getElem?_range hk]
  rfl

/-- C12, as stated, fails: with `width = height = 65535` the `int` product `width * height`
of line 102 is `-131071`, and `render` emits no character at all. -/
theorem render_emits_nothing_on_overflow :
    (2 : Int) ≤ 65535 ∧ (1 : Int) ≤ 500 ∧ int_wrap (65535 * 65535) = -131071 ∧
      (render 65535 65535 500 (1 / 2) (fun _ => 'x')).2.length = 0 ∧
      ((render 65535 65535 500 (1 / 2) (fun _ => 'x')).2.length : Int) ≠ 65535 * 65535 := by
  have hlen : (render 65535 65535 500 (1 / 2) (fun _ => 'x')).2.length =
      (int_wrap (65535 * 65535)).toNat :=
    render_emit_length 65535 65535 (render 65535 65535 500 (1 / 2) (fun _ => 'x')).1
  have hw : int_wrap (65535 * 65535) = -131071 := by decide
  rw [hlen, hw]
  exact ⟨by decide, by decide, by decide, by decide⟩

/-- C12, amended: for `width ≥ 2` and `height ≥ 2` with `width * height ≤ INT_MAX` and a
budget `n ≥ 1`, one call of `render` emits exactly `width * height` characters, each of them
one of the 12 characters of the ramp; no newline is among them. The count is the same in the
program's arithmetic. -/
theorem render_emits_ramp (width height n : Int) (s : real_t) (buffer : Int → Char)
    (hw : 2 ≤ width) (hh : 2 ≤ height) (hb : width * height ≤ 2147483647) (hn : 1 ≤ n) :
    ((render width height n s buffer).2.length : Int) = width * height ∧
      (∀ ch ∈ (render width height n s buffer).2, ch ∈ chr) ∧
      chr.length = 12 ∧
      '\n' ∉ (render width height n s buffer).2 ∧
      (∀ sine : IEEE.fp,
        ((IEEE.render width height n sine buffer).2.length : Int) = width * height) := by
  have hpos : 0 ≤ width * height := mul_nonneg (by omega) (by omega)
  have harea := area_wrap width height (by omega) (by omega) hb
  have hmem : ∀ ch ∈ (render width height n s buffer).2, ch ∈ chr := by
    intro ch hch
    have hch' : ch ∈ render_emit width height (render_fill width height n s buffer) := hch
    rw [render_emit, harea, List.mem_map] at hch'
    obtain ⟨i, hi, rfl⟩ := hch'
    have hi' := List.mem_range.mp hi
    rw [render_fill_index width height n s buffer (i : Int) (by omega) (by omega) (by omega)
      hb]
    exact render_glyph_mem width height n s _ _ hn
  refine ⟨?_, hmem, rfl, fun hnl => ?_, fun sine => ?_⟩
  · have hlen : (render width height n s buffer).2.length =
        (int_wrap (width * height)).toNat := render_emit_length width height _
    rw [hlen, harea, Int.toNat_of_nonneg hpos]
  · exact absurd (hmem _ hnl) (by decide)
  · rw [render_double_emit, render_emit_length, harea, Int.toNat_of_nonneg hpos]

theorem render_emits_ramp_witness :
    (2 : Int) ≤ 80 ∧ (2 : Int) ≤ 24 ∧ (80 : Int) * 24 ≤ 2147483647 ∧ (1 : Int) ≤ 500 ∧
      ((render 80 24 500 (1 / 2) (fun _ => 'x')).2.length : Int) = 80 * 24 :=
  ⟨by decide, by decide, by decide, by decide,
    (render_emits_ramp 80 24 500 (1 / 2) (fun _ => 'x')
      (by decide) (by decide) (by decide) (by decide)).1⟩

theorem render_emit_eq_map_order (width height : Int) (buffer : Int → Char) :
    render_emit width height buffer = (render_emit_order width height).map buffer := by
  rw [render_emit, render_emit_order, List.map_map]
  rfl

theorem render_emit_order_get (width height : Int) (k : Nat)
    (hk : k < (int_wrap (width * height)).toNat) :
    (render_emit_order width height)[k]? = some (k : Int) := by
  rw [render_emit_order, List.getElem?_map, List.getElem?_range hk]
  rfl

/-! ## The driver -/

theorem main_loop_calls (width height : Int) (sines : Nat → real_t) (buffer : Int → Char)
    (frames : Nat) :
    (main_loop width height sines buffer frames).2.2 =
      List.replicate frames (width, height, 500) := by
  induction frames with
  | zero => rfl
  | succ k ih =>
    rw [main_loop]
    simp only [ih]
    exact (List.replicate_succ' k (width, height, 500)).symm

theorem main_fails (ioctl : Option (Int × Int)) (sines : Nat → real_t) (buffer : Int → Char)
    (frames : Nat)
    (h : ioctl = none ∨ ∃ w h : Int, ioctl = some (w, h) ∧ (w ≤ 1 ∨ h ≤ 1)) :
    main ioctl sines buffer frames = (some (-1), [], []) := by
  rcases h with rfl | ⟨w, h, rfl, hwh⟩
  · simp [main, get_termsize]
  · rw [main]
    simp only [get_termsize]
    rw [if_pos (Or.inr hwh)]

theorem main_runs (w h : Int) (sines : Nat → real_t) (buffer : Int → Char) (frames : Nat)
    (hw : 2 ≤ w) (hh : 2 ≤ h) :
    (main (some (w, h)) sines buffer frames).1 = none ∧
      (main (some (w, h)) sines buffer frames).2.2 = List.replicate frames (w, h, 500) := by
  have hcond : ¬ ((0 : Int) < 0 ∨ w ≤ 1 ∨ h ≤ 1) := by omega
  rw [main]
  simp only [get_termsize]
  rw [if_neg hcond]
  exact ⟨rfl, main_loop_calls w h sines buffer frames⟩

/-- C15: when the terminal-size query fails, or yields `width ≤ 1` or `height ≤ 1`, `main`
returns `-1`, writes nothing and does not call `render`; so every call of `render` has
`width ≥ 2` and `height ≥ 2` (the divisors `width - 1` and `height - 1` of `remap` are not
zero) and the budget 500. -/
theorem main_guards_render (ioctl : Option (Int × Int)) (sines : Nat → real_t)
    (buffer : Int → Char) (frames : Nat) :
    ((get_termsize ioctl 0 0).1 < 0 ↔ ioctl = none) ∧
    ((ioctl = none ∨ ∃ w h : Int, ioctl = some (w, h) ∧ (w ≤ 1 ∨ h ≤ 1)) →
      main ioctl sines buffer frames = (some (-1), [], [])) ∧
    (∀ call ∈ (main ioctl sines buffer frames).2.2,
      2 ≤ call.1 ∧ 2 ≤ call.2.1 ∧ call.2.2 = 500 ∧
        ((call.1 - 1 : Int) : ℚ) ≠ 0 ∧ ((call.2.1 - 1 : Int) : ℚ) ≠ 0) ∧
    (∀ w h : Int, ioctl = some (w, h) → 2 ≤ w → 2 ≤ h →
      (main ioctl sines buffer frames).1 = none ∧
        (main ioctl sines buffer frames).2.2 = List.replicate frames (w, h, 500)) := by
  refine ⟨?_, main_fails ioctl sines buffer frames, ?_, ?_⟩
  · cases ioctl with
    | none => simp [get_termsize]
    | some p => simp [get_termsize]
  · intro call hcall
    cases ioctl with
    | none =>
      rw [main_fails none sines buffer frames (Or.inl rfl)] at hcall
      simp at hcall
    | some p =>
      obtain ⟨w, h⟩ := p
      by_cases hwh : w ≤ 1 ∨ h ≤ 1
      · rw [main_fails (some (w, h)) sines buffer frames (Or.inr ⟨w, h, rfl, hwh⟩)] at hcall
        simp at hcall
      · have hw : 2 ≤ w := by omega
        have hh : 2 ≤ h := by omega
        rw [(main_runs w h sines buffer frames hw hh).2] at hcall
        obtain rfl := List.eq_of_mem_replicate hcall
        refine ⟨hw, hh, rfl, ?_, ?_⟩
        · exact_mod_cast (by omega : w - 1 ≠ 0)
        · exact_mod_cast (by omega : h - 1 ≠ 0)
  · rintro w h rfl hw hh
    exact main_runs w h sines buffer frames hw hh

theorem main_guards_render_witness :
    main none (fun _ => 0) (fun _ => 'x') 3 = (some (-1), [], []) ∧
      main (some (1, 24)) (fun _ => 0) (fun _ => 'x') 3 = (some (-1), [], []) ∧
      (main (some (80, 24)) (fun _ => 0) (fun _ => 'x') 3).2.2 =
        List.replicate 3 (80, 24, 500) :=
  ⟨(main_guards_render none (fun _ => 0) (fun _ => 'x') 3).2.1 (Or.inl rfl),
    (main_guards_render (some (1, 24)) (fun _ => 0) (fun _ => 'x') 3).2.1
      (Or.inr ⟨1, 24, rfl, Or.inl (by decide)⟩),
    ((main_guards_render (some (80, 24)) (fun _ => 0) (fun _ => 'x') 3).2.2.2
      80 24 rfl (by decide) (by decide)).2⟩

/-! ## The program's own arithmetic -/

theorem mandelbrot_double_eq_count (k : Nat) (z c : IEEE.complex_t) :
    IEEE.mandelbrot z c (k : Int) =
      ((IEEE.escape_count (fun w => IEEE.gt (IEEE.clength_squared w) (IEEE.of_int 4)) c k z :
        Nat) : Int) := by
  induction k generalizing z with
  | zero =>
    rw [IEEE.mandelbrot]
    simp [IEEE.escape_count]
  | succ k ih =>
    have hk : ((k + 1 : Nat) : Int) - 1 = (k : Int) := by omega
    rw [IEEE.mandelbrot, if_neg (by omega), IEEE.escape_count]
    by_cases hz : IEEE.gt (IEEE.clength_squared z) (IEEE.of_int 4) = true
    · rw [if_pos (Or.inr hz), if_pos hz]
      rfl
    · rw [if_neg (by rintro (h | h); omega; exact hz h), if_neg hz, hk, ih]
      push_cast
      rfl

theorem loop_double_eq_count (c : IEEE.complex_t) (d : Nat) (n : Int) (z : IEEE.complex_t)
    (count : Int) (hd : n - count = (d : Int)) :
    IEEE.mandelbrot_loop c n z count =
      count + ((IEEE.escape_count
        (fun w => !IEEE.le (IEEE.clength_squared w) (IEEE.of_int 4)) c d z : Nat) : Int) := by
  induction d generalizing z count with
  | zero =>
    rw [IEEE.mandelbrot_loop, if_neg (by omega), IEEE.escape_count]
    simp
  | succ d ih =>
    rw [IEEE.mandelbrot_loop, IEEE.escape_count]
    by_cases hz : IEEE.le (IEEE.clength_squared z) (IEEE.of_int 4) = true
    · rw [if_pos ⟨by omega, hz⟩, ih _ (count + 1) (by push_cast at hd; omega), hz]
      simp only [Bool.not_true, Bool.false_eq_true, if_false]
      push_cast
      ring
    · rw [if_neg (fun h => hz h.2)]
      simp only [Bool.not_eq_true] at hz
      rw [hz]
      simp

theorem loop_not_gt_double_eq_count (c : IEEE.complex_t) (d : Nat) (n : Int)
    (z : IEEE.complex_t) (count : Int) (hd : n - count = (d : Int)) :
    IEEE.mandelbrot_loop_not_gt c n z count =
      count + ((IEEE.escape_count
        (fun w => IEEE.gt (IEEE.clength_squared w) (IEEE.of_int 4)) c d z : Nat) : Int) := by
  induction d generalizing z count with
  | zero =>
    rw [IEEE.mandelbrot_loop_not_gt, if_neg (by omega), IEEE.escape_count]
    simp
  | succ d ih =>
    rw [IEEE.mandelbrot_loop_not_gt, IEEE.escape_count]
    by_cases hz : IEEE.gt (IEEE.clength_squared z) (IEEE.of_int 4) = true
    · rw [if_neg (fun h => h.2 hz), if_pos hz]
      simp
    · rw [if_pos ⟨by omega, hz⟩, ih _ (count + 1) (by push_cast at hd; omega), if_neg hz]
      push_cast
      ring

theorem mandelbrot_double_eval (z c : IEEE.complex_t) (n : Int) (hn : 0 ≤ n) :
    IEEE.mandelbrot z c n =
      ((IEEE.escape_count (fun w => IEEE.gt (IEEE.clength_squared w) (IEEE.of_int 4)) c
        n.toNat z : Nat) : Int) := by
  have h := mandelbrot_double_eq_count n.toNat z c
  rw [Int.toNat_of_nonneg hn] at h
  exact h

theorem mandelbrot_iter_double_eval (z c : IEEE.complex_t) (n : Int) (hn : 0 ≤ n) :
    IEEE.mandelbrot_iter z c n =
      ((IEEE.escape_count (fun w => !IEEE.le (IEEE.clength_squared w) (IEEE.of_int 4)) c
        n.toNat z : Nat) : Int) := by
  rw [IEEE.mandelbrot_iter,
    loop_double_eq_count c n.toNat n z 0 (by rw [Int.toNat_of_nonneg hn]; ring)]
  simp

/-- C7, as stated, fails in the program's arithmetic: for `z = 1e200 + 1e200 i` the value
`clength_squared z` is `inf - inf`, a NaN, which is neither `> 4` nor `<= 4`; with budget 5
the recursion returns 5 and the loop of the claim returns 0. The same happens in a frame:
for the cell in column 53 and row 9 of an 80 x 24 frame with `sine = 7484469 / 2^23` (the
clock value 1793361600000) and budget 500, the recursion returns 500 and the loop 39. -/
theorem recursion_differs_from_loop_on_nan :
    IEEE.clength_squared (IEEE.COMPLEX (IEEE.literal 1e200) (IEEE.literal 1e200)) =
        IEEE.fp.nan ∧
      IEEE.mandelbrot (IEEE.COMPLEX (IEEE.literal 1e200) (IEEE.literal 1e200))
        (IEEE.COMPLEX (IEEE.of_int 0) (IEEE.of_int 0)) 5 = 5 ∧
      IEEE.mandelbrot_iter (IEEE.COMPLEX (IEEE.literal 1e200) (IEEE.literal 1e200))
        (IEEE.COMPLEX (IEEE.of_int 0) (IEEE.of_int 0)) 5 = 0 ∧
      IEEE.mandelbrot (IEEE.COMPLEX (IEEE.of_int 0) (IEEE.of_int 0))
        (IEEE.render_point 80 24 (IEEE.fp.fin (7484469 / 8388608)) 53 9) 500 = 500 ∧
      IEEE.mandelbrot_iter (IEEE.COMPLEX (IEEE.of_int 0) (IEEE.of_int 0))
        (IEEE.render_point 80 24 (IEEE.fp.fin (7484469 / 8388608)) 53 9) 500 = 39 := by
  refine ⟨by decide!, ?_, ?_, ?_, ?_⟩
  · rw [mandelbrot_double_eval _ _ 5 (by decide)]
    decide!
  · rw [mandelbrot_iter_double_eval _ _ 5 (by decide)]
    decide!
  · rw [mandelbrot_double_eval _ _ 500 (by decide)]
    decide!
  · rw [mandelbrot_iter_double_eval _ _ 500 (by decide)]
    decide!

/-- C7, amended: for a budget `n ≥ 0` the recursive `mandelbrot z c n` returns, in the
program's arithmetic, the same number as the loop `count = 0; while count < n and
not (clength_squared(z) > 4): z = csquared(z) + c; count += 1; return count`; with the test
written `clength_squared(z) <= 4` the loop returns the same number in exact arithmetic. -/
theorem mandelbrot_eq_iter_not_gt (n : Int) (hn : 0 ≤ n) :
    (∀ z c : IEEE.complex_t, IEEE.mandelbrot z c n = IEEE.mandelbrot_iter_not_gt z c n) ∧
      (∀ z c : complex_t, mandelbrot z c n = mandelbrot_iter z c n) := by
  refine ⟨fun z c => ?_, fun z c => mandelbrot_eq_iter z c n hn⟩
  rw [mandelbrot_double_eval z c n hn, IEEE.mandelbrot_iter_not_gt,
    loop_not_gt_double_eq_count c n.toNat n z 0 (by rw [Int.toNat_of_nonneg hn]; ring)]
  simp

theorem mandelbrot_eq_iter_not_gt_witness :
    (0 : Int) ≤ 5 ∧
      IEEE.mandelbrot (IEEE.COMPLEX (IEEE.literal 1e200) (IEEE.literal 1e200))
          (IEEE.COMPLEX (IEEE.of_int 0) (IEEE.of_int 0)) 5 =
        IEEE.mandelbrot_iter_not_gt (IEEE.COMPLEX (IEEE.literal 1e200) (IEEE.literal 1e200))
          (IEEE.COMPLEX (IEEE.of_int 0) (IEEE.of_int 0)) 5 :=
  ⟨by decide, (mandelbrot_eq_iter_not_gt 5 (by decide)).1 _ _⟩

theorem render_glyph_double_eval (width height n : Int) (hn : 0 ≤ n) (s : IEEE.fp)
    (x y : Int) :
    IEEE.render_glyph width height n s x y =
      chr_at (IEEE.render_idx
        ((IEEE.escape_count (fun w => IEEE.gt (IEEE.clength_squared w) (IEEE.of_int 4))
          (IEEE.render_point width height s x y) n.toNat
          (IEEE.COMPLEX (IEEE.of_int 0) (IEEE.of_int 0)) : Nat) : Int) n) := by
  rw [IEEE.render_glyph]
  simp only [mandelbrot_double_eval _ _ n hn]

theorem render_cell_double (width height n : Int) (s : IEEE.fp) (buffer : Int → Char)
    (x y : Int) (hx0 : 0 ≤ x) (hx : x < width) (hy0 : 0 ≤ y) (hy : y < height)
    (hb : width * height ≤ 2147483647) (hn : 0 ≤ n) :
    (IEEE.render width height n s buffer).1 (y * width + x) =
      chr_at (IEEE.render_idx
        ((IEEE.escape_count (fun w => IEEE.gt (IEEE.clength_squared w) (IEEE.of_int 4))
          (IEEE.render_point width height s x y) n.toNat
          (IEEE.COMPLEX (IEEE.of_int 0) (IEEE.of_int 0)) : Nat) : Int) n) := by
  have hr : (IEEE.render width height n s buffer).1 =
      IEEE.render_fill width height n s buffer := rfl
  rw [hr, render_fill_cell_double width height n s buffer x y hx0 hx hy0 hy hb,
    render_glyph_double_eval width height n hn]

theorem render_emit_nil (width height : Int) (buffer : Int → Char)
    (h : int_wrap (width * height) ≤ 0) : render_emit width height buffer = [] := by
  rw [render_emit, Int.toNat_eq_zero.mpr h]
  rfl

theorem count_program_cell_112_19 :
    IEEE.escape_count (fun w => IEEE.gt (IEEE.clength_squared w) (IEEE.of_int 4))
      (IEEE.render_point 184 41 (IEEE.fp.fin (14831459 / 16777216)) 112 19)
      (500 : Int).toNat (IEEE.COMPLEX (IEEE.of_int 0) (IEEE.of_int 0)) = 46 := by
  decide!

theorem count_formula_cell_112_19 :
    IEEE.escape_count (fun w => IEEE.gt (IEEE.clength_squared w) (IEEE.of_int 4))
      (IEEE.COMPLEX
        (IEEE.remap 112 184
          (IEEE.dadd (IEEE.of_int (-2))
            (IEEE.dmul (IEEE.literal 1.75) (IEEE.fp.fin (14831459 / 16777216))))
          (IEEE.dsub (IEEE.of_int 1)
            (IEEE.dmul (IEEE.literal 0.25) (IEEE.fp.fin (14831459 / 16777216)))))
        (IEEE.remap 19 41
          (IEEE.dadd (IEEE.of_int (-1))
            (IEEE.dmul (IEEE.literal 0.67) (IEEE.fp.fin (14831459 / 16777216))))
          (IEEE.dsub (IEEE.of_int 1)
            (IEEE.dmul (IEEE.literal 0.67) (IEEE.fp.fin (14831459 / 16777216))))))
      (500 : Int).toNat (IEEE.COMPLEX (IEEE.of_int 0) (IEEE.of_int 0)) = 39 := by
  decide!

theorem count_row_0_column_70 :
    IEEE.escape_count (fun w => IEEE.gt (IEEE.clength_squared w) (IEEE.of_int 4))
      (IEEE.render_point 194 118 (IEEE.fp.fin (549961 / 1048576)) 70 0) (500 : Int).toNat
      (IEEE.COMPLEX (IEEE.of_int 0) (IEEE.of_int 0)) = 169 := by
  decide!

theorem count_row_117_column_70 :
    IEEE.escape_count (fun w => IEEE.gt (IEEE.clength_squared w) (IEEE.of_int 4))
      (IEEE.render_point 194 118 (IEEE.fp.fin (549961 / 1048576)) 70 117) (500 : Int).toNat
      (IEEE.COMPLEX (IEEE.of_int 0) (IEEE.of_int 0)) = 192 := by
  decide!

theorem floor_39 : ⌊(((39 : Int) : ℚ)) / (((500 : Int)) : ℚ) * 11⌋ = 0 := by
  rw [Int.floor_eq_iff]
  constructor <;> norm_num

/-- C2, as stated, fails in two ways. In the program's arithmetic, for a 184 x 41 frame with
budget 500 and `sine = 14831459 / 2^24` (the clock value 1793361600065), the cell in column
112 and row 19 is stored as `,` (escape time 46, index 1), while the point of the claim's
formula has escape time 39 and the character `.` (index 0). And with `width = height = 65535`
the `int` product `width * height` of line 102 is `-131071` and no buffer cell is emitted. -/
theorem render_differs_from_formula :
    (IEEE.render 184 41 500 (IEEE.fp.fin (14831459 / 16777216)) (fun _ => 'x')).1
        (19 * 184 + 112) = ',' ∧
      IEEE.mandelbrot (IEEE.COMPLEX (IEEE.of_int 0) (IEEE.of_int 0))
        (IEEE.COMPLEX
          (IEEE.remap 112 184
            (IEEE.dadd (IEEE.of_int (-2))
              (IEEE.dmul (IEEE.literal 1.75) (IEEE.fp.fin (14831459 / 16777216))))
            (IEEE.dsub (IEEE.of_int 1)
              (IEEE.dmul (IEEE.literal 0.25) (IEEE.fp.fin (14831459 / 16777216)))))
          (IEEE.remap 19 41
            (IEEE.dadd (IEEE.of_int (-1))
              (IEEE.dmul (IEEE.literal 0.67) (IEEE.fp.fin (14831459 / 16777216))))
            (IEEE.dsub (IEEE.of_int 1)
              (IEEE.dmul (IEEE.literal 0.67) (IEEE.fp.fin (14831459 / 16777216))))))
        500 = 39 ∧
      chr[Int.toNat ⌊(((39 : Int) : ℚ)) / (((500 : Int)) : ℚ) * 11⌋]? = some '.' ∧
      IEEE.render_idx 39 500 = 0 ∧
      chr[Int.toNat ⌊(((39 : Int) : ℚ)) / (((500 : Int)) : ℚ) * 11⌋]? ≠
        some ((IEEE.render 184 41 500 (IEEE.fp.fin (14831459 / 16777216)) (fun _ => 'x')).1
          (19 * 184 + 112)) ∧
      (IEEE.render 65535 65535 500 (IEEE.fp.fin (14831459 / 16777216)) (fun _ => 'x')).2 =
        [] := by
  have hcell : (IEEE.render 184 41 500 (IEEE.fp.fin (14831459 / 16777216))
      (fun _ => 'x')).1 (19 * 184 + 112) = ',' := by
    rw [render_cell_double 184 41 500 _ _ 112 19 (by decide) (by decide) (by decide)
      (by decide) (by decide) (by decide), count_program_cell_112_19]
    decide!
  have hchr : chr[Int.toNat ⌊(((39 : Int) : ℚ)) / (((500 : Int)) : ℚ) * 11⌋]? =
      some '.' := by
    rw [floor_39]
    decide
  refine ⟨hcell, ?_, hchr, by decide!, ?_, ?_⟩
  · rw [mandelbrot_double_eval _ _ 500 (by decide), count_formula_cell_112_19]
    rfl
  · rw [hchr, hcell]
    decide
  · rw [render_double_emit]
    exact render_emit_nil _ _ _ (by decide)

/-- C13, as stated, fails in the program's arithmetic: for an 80 x 24 frame with
`sine = 14648231 / 2^49` (the clock value 1793370009941), the real part of column 0 is not
`-2 + 1.75 s`, that of column 79 is not `1 - 0.25 s`, and the imaginary part of row 23 is not
`1 - 0.67 s`, whether these are taken exactly or evaluated in `double`. -/
theorem render_point_ends_inexact :
    (IEEE.render_point 80 24 (IEEE.fp.fin (14648231 / 562949953421312)) 0 0).real =
        IEEE.fp.fin (-4503599583425803 / 2251799813685248) ∧
      IEEE.dadd (IEEE.of_int (-2))
          (IEEE.dmul (IEEE.literal 1.75) (IEEE.fp.fin (14648231 / 562949953421312))) =
        IEEE.fp.fin (-4503599524832879 / 2251799813685248) ∧
      (-2 + 1.75 * (14648231 / 562949953421312) : ℚ) =
        -4503599524832879 / 2251799813685248 ∧
      (IEEE.render_point 80 24 (IEEE.fp.fin (14648231 / 562949953421312)) (80 - 1) 0).real =
        IEEE.fp.fin (2251799857629941 / 2251799813685248) ∧
      IEEE.dsub (IEEE.of_int 1)
          (IEEE.dmul (IEEE.literal 0.25) (IEEE.fp.fin (14648231 / 562949953421312))) =
        IEEE.fp.fin (2251799799037017 / 2251799813685248) ∧
      (1 - 0.25 * (14648231 / 562949953421312) : ℚ) =
        2251799799037017 / 2251799813685248 ∧
      (IEEE.render_point 80 24 (IEEE.fp.fin (14648231 / 562949953421312)) 0 (24 - 1)).imag =
        IEEE.fp.fin (4503599548855977 / 4503599627370496) ∧
      IEEE.dsub (IEEE.of_int 1)
          (IEEE.dmul (IEEE.literal 0.67) (IEEE.fp.fin (14648231 / 562949953421312))) =
        IEEE.fp.fin (2251799774427989 / 2251799813685248) ∧
      (1 - 0.67 * (14648231 / 562949953421312) : ℚ) =
        56294994360699723 / 56294995342131200 ∧
      (IEEE.render_point 80 24 (IEEE.fp.fin (14648231 / 562949953421312)) 0 0).real ≠
        IEEE.fp.fin (-2 + 1.75 * (14648231 / 562949953421312)) ∧
      (IEEE.render_point 80 24 (IEEE.fp.fin (14648231 / 562949953421312)) (80 - 1) 0).real ≠
        IEEE.fp.fin (1 - 0.25 * (14648231 / 562949953421312)) ∧
      (IEEE.render_point 80 24 (IEEE.fp.fin (14648231 / 562949953421312)) 0 (24 - 1)).imag ≠
        IEEE.fp.fin (1 - 0.67 * (14648231 / 562949953421312)) := by
  refine ⟨by decide!, by decide!, by norm_num, by decide!, by decide!, by norm_num,
    by decide!, by decide!, by norm_num, by decide!, by decide!, by decide!⟩

/-- C16, as stated, fails in the program's arithmetic: for `z = 1 + 1e-9 i` the imaginary
part is not zero, yet `re*re - im*im` and `re*re + im*im` are the same `double`, 1. -/
theorem clength_squared_equals_magnitude_off_axis :
    IEEE.im (IEEE.COMPLEX (IEEE.of_int 1) (IEEE.literal 1e-9)) ≠ IEEE.fp.fin 0 ∧
      IEEE.clength_squared (IEEE.COMPLEX (IEEE.of_int 1) (IEEE.literal 1e-9)) =
        IEEE.dadd
          (IEEE.dmul (IEEE.re (IEEE.COMPLEX (IEEE.of_int 1) (IEEE.literal 1e-9)))
            (IEEE.re (IEEE.COMPLEX (IEEE.of_int 1) (IEEE.literal 1e-9))))
          (IEEE.dmul (IEEE.im (IEEE.COMPLEX (IEEE.of_int 1) (IEEE.literal 1e-9)))
            (IEEE.im (IEEE.COMPLEX (IEEE.of_int 1) (IEEE.literal 1e-9)))) ∧
      IEEE.clength_squared (IEEE.COMPLEX (IEEE.of_int 1) (IEEE.literal 1e-9)) =
        IEEE.fp.fin 1 := by
  refine ⟨by decide!, by decide!, by decide!⟩

/-- C20, as stated, fails in the program's arithmetic: for `sine = 14648231 / 2^49`, which
lies in `[0, 1]` (the clock value 1793370009941), the `float` difference `1 - sine` is 1, and
the point of column 79 of an 80 x 24 frame has a real part above 1. -/
theorem render_point_leaves_view :
    IEEE.le (IEEE.of_int 0) (IEEE.fp.fin (14648231 / 562949953421312)) = true ∧
      IEEE.le (IEEE.fp.fin (14648231 / 562949953421312)) (IEEE.of_int 1) = true ∧
      IEEE.fsub (IEEE.float_of_int 1) (IEEE.fp.fin (14648231 / 562949953421312)) =
        IEEE.fp.fin 1 ∧
      (IEEE.render_point 80 24 (IEEE.fp.fin (14648231 / 562949953421312)) 79 0).real =
        IEEE.fp.fin (2251799857629941 / 2251799813685248) ∧
      IEEE.gt (IEEE.render_point 80 24 (IEEE.fp.fin (14648231 / 562949953421312)) 79 0).real
        (IEEE.of_int 1) = true := by
  refine ⟨by decide!, by decide!, by decide!, by decide!, by decide!⟩

/-- C14, as stated, fails in the program's arithmetic: in a 194 x 118 frame with budget 500
and `sine = 549961 / 2^20` (the clock value 1793361602132), the character emitted at column
70 of the last 194 characters is `:`, the character of row 117 (escape time 192), while the
cell of row 0 in that column holds `~` (escape time 169). And with `width = height = 65535`
nothing is emitted. -/
theorem last_characters_are_not_row_zero :
    (IEEE.render 194 118 500 (IEEE.fp.fin (549961 / 1048576)) (fun _ => 'x')).2.length =
        118 * 194 ∧
      (IEEE.render 194 118 500 (IEEE.fp.fin (549961 / 1048576)) (fun _ => 'x')).2[
          (118 - 1) * 194 + 70]? = some ':' ∧
      (IEEE.render 194 118 500 (IEEE.fp.fin (549961 / 1048576)) (fun _ => 'x')).1
          (0 * 194 + 70) = '~' ∧
      (IEEE.render 194 118 500 (IEEE.fp.fin (549961 / 1048576)) (fun _ => 'x')).2[
          (118 - 1) * 194 + 70]? ≠
        some ((IEEE.render 194 118 500 (IEEE.fp.fin (549961 / 1048576)) (fun _ => 'x')).1
          (0 * 194 + 70)) ∧
      (IEEE.render 65535 65535 500 (IEEE.fp.fin (549961 / 1048576)) (fun _ => 'x')).2 =
        [] := by
  have hlast : (IEEE.render 194 118 500 (IEEE.fp.fin (549961 / 1048576))
      (fun _ => 'x')).2[(118 - 1) * 194 + 70]? = some ':' := by
    rw [render_double_emit, render_emit_get 194 118 _ ((118 - 1) * 194 + 70) (by decide)]
    have h := render_cell_double 194 118 500 (IEEE.fp.fin (549961 / 1048576)) (fun _ => 'x')
      70 117 (by decide) (by decide) (by decide) (by decide) (by decide) (by decide)
    have hidx : (((118 - 1) * 194 + 70 : Nat) : Int) = 117 * 194 + 70 := by decide
    rw [hidx, h, count_row_117_column_70]
    decide!
  have hzero : (IEEE.render 194 118 500 (IEEE.fp.fin (549961 / 1048576))
      (fun _ => 'x')).1 (0 * 194 + 70) = '~' := by
    rw [render_cell_double 194 118 500 _ _ 70 0 (by decide) (by decide) (by decide)
      (by decide) (by decide) (by decide), count_row_0_column_70]
    decide!
  refine ⟨?_, hlast, hzero, ?_, ?_⟩
  · rw [render_double_emit, render_emit_length]
    decide
  · rw [hlast, hzero]
    decide
  · rw [render_double_emit]
    exact render_emit_nil _ _ _ (by decide)

/-- C14, amended: in the frame emitted by `render`, for `width ≥ 2` and `height ≥ 2` with
`width * height ≤ INT_MAX`, the character at position `k` is read from buffer index `k`; so
row 0 (the cells of `y = 0`, which in exact arithmetic carry the lowest imaginary coordinate
for `s` in `[0, 1]`) is at the top: its `width` characters are the first `width` characters
emitted, and the last `width` characters emitted are those of row `height - 1`. -/
theorem row_zero_emitted_first (width height n : Int) (s : IEEE.fp) (buffer : Int → Char)
    (hw : 2 ≤ width) (hh : 2 ≤ height) (hb : width * height ≤ 2147483647) :
    (IEEE.render width height n s buffer).2 =
        (render_emit_order width height).map (IEEE.render width height n s buffer).1 ∧
      (IEEE.render width height n s buffer).2.length = height.toNat * width.toNat ∧
      (∀ x : Nat, x < width.toNat →
        (render_emit_order width height)[x]? = some (0 * width + (x : Int)) ∧
        (IEEE.render width height n s buffer).2[x]? =
          some ((IEEE.render width height n s buffer).1 (0 * width + (x : Int)))) ∧
      (∀ x : Nat, x < width.toNat →
        (render_emit_order width height)[(height.toNat - 1) * width.toNat + x]? =
          some ((height - 1) * width + (x : Int)) ∧
        (IEEE.render width height n s buffer).2[(height.toNat - 1) * width.toNat + x]? =
          some ((IEEE.render width height n s buffer).1 ((height - 1) * width + (x : Int)))) ∧
      (∀ sq : ℚ, 0 ≤ sq → sq ≤ 1 → ∀ x y : Int, 0 ≤ y → y < height →
        (render_point width height sq x 0).imag ≤ (render_point width height sq x y).imag) := by
  have hout : (IEEE.render width height n s buffer).2 =
      (render_emit_order width height).map (IEEE.render width height n s buffer).1 :=
    render_emit_eq_map_order width height _
  have harea := area_wrap width height (by omega) (by omega) hb
  have hwn : ((width.toNat : Nat) : Int) = width := Int.toNat_of_nonneg (by omega)
  have hhn : ((height.toNat : Nat) : Int) = height := Int.toNat_of_nonneg (by omega)
  have hprod : (int_wrap (width * height)).toNat = height.toNat * width.toNat := by
    have h1 : (((height.toNat * width.toNat : Nat)) : Int) = width * height := by
      push_cast; rw [hwn, hhn]; ring
    rw [harea, ← h1, Int.toNat_natCast]
  have hh1 : 1 ≤ height.toNat := by omega
  have hfirst : ∀ x : Nat, x < width.toNat → x < (int_wrap (width * height)).toNat := by
    intro x hx
    rw [hprod]
    calc x < width.toNat := hx
      _ = 1 * width.toNat := (one_mul _).symm
      _ ≤ height.toNat * width.toNat := Nat.mul_le_mul_right _ hh1
  have hlast : ∀ x : Nat, x < width.toNat →
      (height.toNat - 1) * width.toNat + x < (int_wrap (width * height)).toNat := by
    intro x hx
    rw [hprod]
    calc (height.toNat - 1) * width.toNat + x
        < (height.toNat - 1) * width.toNat + width.toNat := by omega
      _ = (height.toNat - 1 + 1) * width.toNat := by ring
      _ = height.toNat * width.toNat := by rw [Nat.sub_add_cancel hh1]
  have hcast : ∀ x : Nat,
      (((height.toNat - 1) * width.toNat + x : Nat) : Int) = (height - 1) * width + (x : Int) := by
    intro x
    push_cast [Nat.cast_sub hh1]
    rw [hwn, hhn]
  refine ⟨hout, ?_, fun x hx => ?_, fun x hx => ?_, fun sq hs0 hs1 x y hy0 hy => ?_⟩
  · have hlen : (IEEE.render width height n s buffer).2.length =
        (int_wrap (width * height)).toNat := render_emit_length width height _
    rw [hlen, hprod]
  · have hget := render_emit_order_get width height x (hfirst x hx)
    rw [hout, List.getElem?_map, hget]
    simp
  · have hget := render_emit_order_get width height _ (hlast x hx)
    rw [hout, List.getElem?_map, hget, hcast x]
    simp
  · have him : -1 + 0.67 * sq ≤ 1 - 0.67 * sq := by norm_num; linarith
    rw [render_point_eq, render_point_eq, COMPLEX, COMPLEX, remap_first]
    exact (remap_mem y height _ _ hh hy0 hy him).1

theorem row_zero_emitted_first_witness :
    (2 : Int) ≤ 80 ∧ (2 : Int) ≤ 16 ∧ (80 : Int) * 16 ≤ 2147483647 ∧
      (IEEE.render 80 16 500 (IEEE.fp.fin (4884829 / 8388608)) (fun _ => 'x')).2[26]? =
        some ((IEEE.render 80 16 500 (IEEE.fp.fin (4884829 / 8388608)) (fun _ => 'x')).1
          (0 * 80 + ((26 : Nat) : Int))) :=
  ⟨by decide, by decide, by decide,
    ((row_zero_emitted_first 80 16 500 (IEEE.fp.fin (4884829 / 8388608)) (fun _ => 'x')
      (by decide) (by decide) (by decide)).2.2.1 26 (by decide)).2⟩

end Mandelbrot
